import Mathlib

/-!
Shallow embedding of the RBA survey georeferencing engine
(`define_RBA_dist_adj_factors.py`, `georef_RBA_survey_data.py`,
`RBA_georef_util.py`).

Numeric modelling: Python ints become `ℤ`, Python floats become `ℚ`
(exact arithmetic; the sources use binary floats, but every claim here is
about the algebraic structure of the computations, which the spec itself
states over exact numbers).  Python `None` coordinates become `Option ℚ`.
Python exceptions become explicit `Except` error values:
`ZeroDivisionError` raised by `compute_adj_factor` is the builder's
degenerate-segment error, `KeyError`/`IndexError` (both subclasses of
Python's `LookupError`) become `lookupError`/`keyError`, an access of
`.survey_cum_dist` on `None` becomes `attributeError`, and the use of a
never-assigned local becomes `nameError`.

The external Geometry Provider (arcpy `queryPointAndDistance`) is
abstracted as a function from a stream id and x,y coordinates to the
measured streamline distance, exactly the only datum the builder reads
from it.
-/

set_option maxRecDepth 2000

deriving instance DecidableEq for Except

namespace RBA

/-- `DEFAULT_ADJ_FACTOR = 1.0` from `RBA_georef_util.py`. -/
def DEFAULT_ADJ_FACTOR : ℚ := 1

/-- `DEFAULT_BEGIN_DIST = 0` from `RBA_georef_util.py`. -/
def DEFAULT_BEGIN_DIST : ℤ := 0

/-- `DEFAULT_END_DIST = 999999` from `RBA_georef_util.py`. -/
def DEFAULT_END_DIST : ℤ := 999999

/-- The single-quote character used by `write_sdi_to_csv_file` to force the
LLID to be read as text. -/
def squote : Char := Char.ofNat 39

/-- A string holding just the single-quote character. -/
def squoteStr : String := String.mk [squote]

/-- `SyncPoint` from `RBA_georef_util.py`: x,y and distance information for
a synchronization point along a stream. -/
structure SyncPoint where
  x_coord : Option ℚ
  y_coord : Option ℚ
  xy_note : String
  survey_cum_dist : ℤ
  streamline_cum_dist : ℚ
  survey_comment : String
deriving DecidableEq, Repr

/-- One adjustment-factor tuple `(begin_sync_point, end_sync_point, adj_factor)`.
The end point is `none` exactly when the Python tuple carries `None`
(the open-end segment appended at end of a stream's data). -/
abbrev AdjFactor := SyncPoint × Option SyncPoint × ℚ

/-- `StreamDistanceInfo` from `RBA_georef_util.py`. -/
structure StreamDistanceInfo where
  llid : String
  name : String
  trib_to : String
  adj_factors : List AdjFactor
deriving DecidableEq, Repr

/-- The stream distance info dictionary, keyed on LLID.  Python 2 dicts are
unordered; we model them as association lists in insertion order, with
unique keys maintained by `insertReplace`. -/
abbrev SdiDict := List (String × StreamDistanceInfo)

/-- Errors that `adjust_stream_distance` / the referencing path can raise:
`lookupError` models the `KeyError` on a missing dictionary key in
`georeference_survey_data` (`KeyError` is a Python `LookupError`);
`attributeError` models `None.survey_cum_dist`; `nameError` models reading
the loop-local variables when the factor sequence was empty. -/
inductive RefError where
  | lookupError
  | attributeError
  | nameError
deriving DecidableEq, Repr

/-- The per-segment test in `adjust_stream_distance`:
`begin_sync_pt_dist <= survey_dist <= end_sync_pt_dist`. -/
def segMatches (d : ℚ) (b e : SyncPoint) : Bool :=
  decide ((b.survey_cum_dist : ℚ) ≤ d) && decide (d ≤ (e.survey_cum_dist : ℚ))

/-- The scanning loop of `adjust_stream_distance`.  The second argument is
the pair `(begin_sync_pt_dist, begin_streamline_pt_dist)` left over from the
previously examined tuple (`none` before the first iteration).  On a break
it returns those two values together with the matched `adj_factor`; when the
loop completes without a break it returns the values of the last iteration
with the default factor, and errors if the loop never ran. -/
def adjScan (d : ℚ) : List AdjFactor → Option (ℤ × ℚ) → Except RefError (ℤ × ℚ × ℚ)
  | [], none => .error .nameError
  | [], some (bs, bst) => .ok (bs, bst, DEFAULT_ADJ_FACTOR)
  | (b, eo, f) :: rest, _ =>
      match eo with
      | none => .error .attributeError
      | some e =>
          if segMatches d b e then .ok (b.survey_cum_dist, b.streamline_cum_dist, f)
          else adjScan d rest (some (b.survey_cum_dist, b.streamline_cum_dist))

/-- `adjust_stream_distance` from `georef_RBA_survey_data.py`, with the
initial loop state exposed. -/
def adjFrom (d : ℚ) (fs : List AdjFactor) (s : Option (ℤ × ℚ)) : Except RefError ℚ :=
  match adjScan d fs s with
  | .error e => .error e
  | .ok (bs, bst, f) => .ok (bst + (d - (bs : ℚ)) * f)

/-- `adjust_stream_distance(survey_dist, stream_adj_factors)`:
`new_dist = begin_streamline_pt_dist + (survey_dist - begin_sync_pt_dist) * adj_factor`. -/
def adjust_stream_distance (d : ℚ) (fs : List AdjFactor) : Except RefError ℚ :=
  adjFrom d fs none

/-- Dictionary lookup, first (and only, keys being unique) matching key. -/
def lookupSDI : SdiDict → String → Option StreamDistanceInfo
  | [], _ => none
  | (k, s) :: rest, llid => if k = llid then some s else lookupSDI rest llid

/-- The referencing operation of `georeference_survey_data`: look up the
stream's adjustment factors (`stream_dist_info_dict[new_llid].adj_factors`,
a `KeyError` -- Python `LookupError` -- when absent) and apply
`adjust_stream_distance`. -/
def resolve (dict : SdiDict) (llid : String) (d : ℚ) : Except RefError ℚ :=
  match lookupSDI dict llid with
  | none => .error .lookupError
  | some sdi => adjust_stream_distance d sdi.adj_factors

/-- One row of the survey-data CSV, restricted to the fields the builder
reads.  `x`/`y` are already parsed as in `get_pool_XY_coords` (empty field
becomes `none`). -/
structure SurveyRow where
  llid : String
  stream : String
  trib_to : String
  cum_dist : ℤ
  x : Option ℚ
  y : Option ℚ
  xy_note : String
  comment : String
deriving DecidableEq, Repr

/-- The Geometry Provider: for a stream id and x,y coordinates, the
streamline cumulative distance that `queryPointAndDistance` reports for the
point snapped to that stream's polyline. -/
abbrev GeomProvider := String → ℚ → ℚ → ℚ

/-- Builder-side errors: `degenerateSegment` models the `ZeroDivisionError`
raised by `compute_adj_factor` when two control points share a survey
distance (the spec's DegenerateSegmentError); `keyError` models
`add_adj_factors_to_sdi` on a key absent from the dictionary; `nameError`
models reading `begin_sync_point` before assignment. -/
inductive BuildError where
  | degenerateSegment
  | keyError
  | nameError
deriving DecidableEq, Repr

/-- The ratio computed by `compute_adj_factor` for a closed segment. -/
def factorFormula (b e : SyncPoint) : ℚ :=
  (e.streamline_cum_dist - b.streamline_cum_dist) /
    ((e.survey_cum_dist : ℚ) - (b.survey_cum_dist : ℚ))

/-- `compute_adj_factor` from `define_RBA_dist_adj_factors.py`.  A zero
denominator raises `ZeroDivisionError` in the source, modelled as
`degenerateSegment`; a `None` end point yields the default factor. -/
def compute_adj_factor (b : SyncPoint) (eo : Option SyncPoint) : Except BuildError ℚ :=
  match eo with
  | some e =>
      if e.survey_cum_dist = b.survey_cum_dist then .error .degenerateSegment
      else .ok (factorFormula b e)
  | none => .ok DEFAULT_ADJ_FACTOR

/-- `new_syncpt_using_survey_dist`: both distances set to the pool's
cumulative distance, no coordinates. -/
def new_syncpt_using_survey_dist (d : ℤ) (note comment : String) : SyncPoint :=
  ⟨none, none, note, d, (d : ℚ), comment⟩

/-- `compute_xy_sync_point`, with the Geometry Provider's reported
streamline distance passed in as `gdist`. -/
def compute_xy_sync_point (gdist : ℚ) (x y : ℚ) (d : ℤ) (note comment : String) : SyncPoint :=
  ⟨some x, some y, note, d, gdist, comment⟩

/-- `get_pool_XY_coords` combined with the
`(pool_x_coord is None) | (pool_y_coord is None)` test: the row's
coordinate pair, present only when both are present. -/
def getXY (row : SurveyRow) : Option (ℚ × ℚ) :=
  match row.x, row.y with
  | some x, some y => some (x, y)
  | _, _ => none

/-- The sync point `compute_xy_sync_point` builds for a row carrying the
coordinates `(x, y)`. -/
def epFor (gp : GeomProvider) (row : SurveyRow) (x y : ℚ) : SyncPoint :=
  compute_xy_sync_point (gp row.llid x y) x y row.cum_dist row.xy_note row.comment

/-- The begin sync point chosen for the first row of a stream: from the
survey distance alone when coordinates are missing, via the Geometry
Provider otherwise. -/
def beginPointFor (gp : GeomProvider) (row : SurveyRow) : SyncPoint :=
  match getXY row with
  | none => new_syncpt_using_survey_dist row.cum_dist row.xy_note row.comment
  | some (x, y) => epFor gp row x y

/-- `add_adj_factors_to_sdi`: replace the `adj_factors` of the entry with
the given key; `none` models the `KeyError` when the key is absent. -/
def setFactors : SdiDict → String → List AdjFactor → Option SdiDict
  | [], _, _ => none
  | (k, s) :: rest, llid, fs =>
      if k = llid then some ((k, { s with adj_factors := fs }) :: rest)
      else
        match setFactors rest llid fs with
        | none => none
        | some r => some ((k, s) :: r)

/-- `dict[key] = value`: replace an existing entry in place, else append. -/
def insertReplace : SdiDict → String → StreamDistanceInfo → SdiDict
  | [], k, s => [(k, s)]
  | (k0, s0) :: rest, k, s =>
      if k0 = k then (k0, s) :: rest else (k0, s0) :: insertReplace rest k s

/-- The loop-carried locals of
`build_streamlength_adjustment_factor_dictionary`. -/
structure BuildState where
  dict : SdiDict
  adj_factors : List AdjFactor
  prev_llid : String
  need_adj_factor : Bool
  begin_sync_point : Option SyncPoint
deriving Repr

/-- Initial values of the builder's loop locals (`begin_sync_point` is
never assigned before the first stream starts). -/
def initState : BuildState := ⟨[], [], "", false, none⟩

/-- The factor list for the current stream at wrap-up time: the
accumulated factors, extended by the owed `(begin_sync_point, None,
default)` tuple when `need_adj_factor` is still set. -/
def owedFactors (st : BuildState) : Except BuildError (List AdjFactor) :=
  if st.need_adj_factor then
    match st.begin_sync_point with
    | none => .error .nameError
    | some b =>
        match compute_adj_factor b none with
        | .error e => .error e
        | .ok f => .ok (st.adj_factors ++ [(b, none, f)])
  else .ok st.adj_factors

/-- Wrap up adjustment-factor processing for the current stream: append the
owed tuple when needed, then `add_adj_factors_to_sdi`.  Performed on a
stream change and at end of file. -/
def flushFactors (st : BuildState) : Except BuildError BuildState :=
  match owedFactors st with
  | .error e => .error e
  | .ok fs =>
      match setFactors st.dict st.prev_llid fs with
      | none => .error .keyError
      | some d => .ok { st with dict := d, adj_factors := fs, need_adj_factor := false }

/-- One iteration of the builder's row loop. -/
def build_step (gp : GeomProvider) (st : BuildState) (row : SurveyRow) :
    Except BuildError BuildState :=
  if row.llid = "" then .ok st
  else if row.llid ≠ st.prev_llid then
    match (if st.prev_llid ≠ "" then flushFactors st else .ok st) with
    | .error e => .error e
    | .ok st1 =>
        .ok { dict := insertReplace st1.dict row.llid ⟨row.llid, row.stream, row.trib_to, []⟩
              adj_factors := []
              prev_llid := row.llid
              need_adj_factor := true
              begin_sync_point := some (beginPointFor gp row) }
  else
    match getXY row with
    | none => .ok { st with need_adj_factor := true }
    | some (x, y) =>
        match st.begin_sync_point with
        | none => .error .nameError
        | some b =>
            match compute_adj_factor b (some (epFor gp row x y)) with
            | .error e => .error e
            | .ok f =>
                .ok { st with
                      adj_factors := st.adj_factors ++ [(b, some (epFor gp row x y), f)]
                      begin_sync_point := some (epFor gp row x y)
                      need_adj_factor := false }

/-- The builder's row loop. -/
def build_loop (gp : GeomProvider) : List SurveyRow → BuildState → Except BuildError BuildState
  | [], st => .ok st
  | r :: rest, st =>
      match build_step gp st r with
      | .error e => .error e
      | .ok st' => build_loop gp rest st'

/-- Run the builder from a given state: the row loop followed by the
end-of-file wrap-up (which calls `add_adj_factors_to_sdi` unconditionally,
a `KeyError` on an input with no usable rows). -/
def buildFrom (gp : GeomProvider) (rows : List SurveyRow) (st : BuildState) :
    Except BuildError SdiDict :=
  match build_loop gp rows st with
  | .error e => .error e
  | .ok st' =>
      match flushFactors st' with
      | .error e => .error e
      | .ok st2 => .ok st2.dict

/-- `build_streamlength_adjustment_factor_dictionary` from
`define_RBA_dist_adj_factors.py`. -/
def build_streamlength_adjustment_factor_dictionary (gp : GeomProvider)
    (rows : List SurveyRow) : Except BuildError SdiDict :=
  buildFrom gp rows initState

/-! ### The CSV codec (`write_sdi_to_csv_file` / `read_sdi_from_csvfile`)

A CSV data row is modelled at the value level: the writer emits Python
values through `csv.writer` (`None` becomes the empty field, numbers their
decimal text) and the reader immediately coerces each field back
(`int`, `float`, `parse_float_or_NA`, `str`), so composing the two is the
identity on each typed field; the typed record below is that composition's
domain.  Survey distances are `ℤ` because the reader applies `int(...)`,
which succeeds exactly on integer-formatted text (and all survey distances
the writer emits are Python ints). -/

/-- One data row of the stream-distance-information CSV file, fields in the
order written by `write_sdi_to_csv_file`. -/
structure CsvRow where
  locationID : String
  stream_Name : String
  trib_To : String
  begin_Survey_Cum_Dist : ℤ
  begin_Streamline_Cum_Dist : ℚ
  begin_X_coord : Option ℚ
  begin_Y_coord : Option ℚ
  begin_XY_Note : String
  begin_Comment : String
  end_Survey_Cum_Dist : ℤ
  end_Streamline_Cum_Dist : ℚ
  end_X_coord : Option ℚ
  end_Y_coord : Option ℚ
  end_XY_Note : String
  end_Comment : String
  adj_Factor : ℚ
deriving DecidableEq, Repr

/-- `expand_sync_pt` from `RBA_georef_util.py`: the tuple of attribute
values of a sync point, or the minimal tuple of defaults/empties when the
point is `None`. -/
def expand_sync_pt (p : Option SyncPoint) (default_distance : ℤ) :
    ℤ × ℚ × Option ℚ × Option ℚ × String × String :=
  match p with
  | none => (default_distance, (default_distance : ℚ), none, none, "", "")
  | some sp => (sp.survey_cum_dist, sp.streamline_cum_dist, sp.x_coord, sp.y_coord,
                sp.xy_note, sp.survey_comment)

/-- `"'{}'".format(stream_id)`: wrap the LLID in single quotes to force
text interpretation. -/
def quote_llid (s : String) : String := String.mk (squote :: s.data ++ [squote])

/-- `str(row.LocationID).replace("'","")`: drop every single quote. -/
def remove_squotes (s : String) : String := String.mk (s.data.filter (fun c => c ≠ squote))

/-- One CSV row for one adjustment factor, as assembled by
`chain_data_two_levels` in `write_sdi_to_csv_file` (`qllid` is the already
quoted LLID). -/
def row_for_factor (qllid name trib : String) (af : AdjFactor) : CsvRow :=
  match expand_sync_pt (some af.1) DEFAULT_BEGIN_DIST,
        expand_sync_pt af.2.1 DEFAULT_END_DIST with
  | (bs, bst, bx, by0, bn, bc), (es, est, ex, ey0, en, ec) =>
      ⟨qllid, name, trib, bs, bst, bx, by0, bn, bc, es, est, ex, ey0, en, ec, af.2.2⟩

/-- Insert an entry into a key-sorted list (`sorted(sdi_dict)` iterates the
dictionary's keys in ascending order). -/
def insertByKey (e : String × StreamDistanceInfo) : SdiDict → SdiDict
  | [] => [e]
  | f :: rest => if f.1 < e.1 then f :: insertByKey e rest else e :: f :: rest

/-- Sort a dictionary's entries by key, modelling `sorted(sdi_dict)`. -/
def sortByKey : SdiDict → SdiDict
  | [] => []
  | e :: rest => insertByKey e (sortByKey rest)

/-- The rows written for one stream: one per adjustment factor, in
sequence order. -/
def writeBlock (e : String × StreamDistanceInfo) : List CsvRow :=
  e.2.adj_factors.map (row_for_factor (quote_llid e.1) e.2.name e.2.trib_to)

/-- `write_sdi_to_csv_file`: one row per adjustment factor, streams in key
order, factors in sequence order. -/
def write_sdi_to_csv_file (dict : SdiDict) : List CsvRow :=
  (sortByKey dict).flatMap writeBlock

/-- Reader-side errors: `keyError` models `add_adj_factors_to_sdi` applied
to a key absent from the dictionary (as happens on an empty file, where
`prev_llid` is still `""`). -/
inductive ReadError where
  | keyError
deriving DecidableEq, Repr

/-- The begin `create_syncpoint` call in `read_sdi_from_csvfile`. -/
def parsedBegin (r : CsvRow) : SyncPoint :=
  ⟨r.begin_X_coord, r.begin_Y_coord, r.begin_XY_Note, r.begin_Survey_Cum_Dist,
   r.begin_Streamline_Cum_Dist, r.begin_Comment⟩

/-- The end `create_syncpoint` call in `read_sdi_from_csvfile`: the reader
always constructs a concrete end point. -/
def parsedEnd (r : CsvRow) : SyncPoint :=
  ⟨r.end_X_coord, r.end_Y_coord, r.end_XY_Note, r.end_Survey_Cum_Dist,
   r.end_Streamline_Cum_Dist, r.end_Comment⟩

/-- The adjustment-factor tuple appended for one CSV row. -/
def parsedFactor (r : CsvRow) : AdjFactor := (parsedBegin r, some (parsedEnd r), r.adj_Factor)

/-- The row loop of `read_sdi_from_csvfile`, carrying the dictionary, the
current stream's accumulated factors and `prev_llid`. -/
def read_loop : List CsvRow → SdiDict → List AdjFactor → String → Except ReadError SdiDict
  | [], dict, afs, prev =>
      match setFactors dict prev afs with
      | none => .error .keyError
      | some d => .ok d
  | r :: rest, dict, afs, prev =>
      let new := remove_squotes r.locationID
      if new = prev then
        read_loop rest dict (afs ++ [parsedFactor r]) prev
      else
        match (if prev = "" then some dict else setFactors dict prev afs) with
        | none => .error .keyError
        | some d =>
            read_loop rest (insertReplace d new ⟨new, r.stream_Name, r.trib_To, []⟩)
              [parsedFactor r] new

/-- `read_sdi_from_csvfile` from `RBA_georef_util.py`. -/
def read_sdi_from_csvfile (rows : List CsvRow) : Except ReadError SdiDict :=
  read_loop rows [] [] ""

/-- The concrete end point the reader produces for a segment whose end was
written from `None`: both distances `DEFAULT_END_DIST = 999999`, no
coordinates, empty text fields. -/
def sentinelEnd : SyncPoint := ⟨none, none, "", DEFAULT_END_DIST, (DEFAULT_END_DIST : ℚ), ""⟩

/-- What a sync point becomes after a write/read round trip: an absent end
point materializes as `sentinelEnd`. -/
def matEnd : Option SyncPoint → SyncPoint
  | none => sentinelEnd
  | some e => e

/-- An adjustment factor after a write/read round trip. -/
def matFactor (af : AdjFactor) : AdjFactor := (af.1, some (matEnd af.2.1), af.2.2)

/-- A stream's info after a write/read round trip. -/
def matSDI (s : StreamDistanceInfo) : StreamDistanceInfo :=
  { s with adj_factors := s.adj_factors.map matFactor }

/-- A dictionary entry after a write/read round trip. -/
def matEntry (e : String × StreamDistanceInfo) : String × StreamDistanceInfo :=
  (e.1, matSDI e.2)

/-! ### Invariants of built tables -/

/-- A chain of closed adjustment factors starting at control point `p` and
ending at control point `q`: every tuple has a concrete end carrying the
computed ratio, each begin is the previous end, and survey distances
strictly increase. -/
def closedChainB (p : SyncPoint) : List AdjFactor → SyncPoint → Bool
  | [], q => decide (q = p)
  | (b, eo, f) :: rest, q =>
      decide (b = p) &&
        (match eo with
         | none => false
         | some e =>
             decide (b.survey_cum_dist < e.survey_cum_dist) &&
               decide (f = factorFormula b e) && closedChainB e rest q)

/-- A well-formed factor sequence from control point `p`: closed tuples as
in `closedChainB`, with at most one open-ended tuple, in final position,
carrying the default factor. -/
def segChainB (p : SyncPoint) : List AdjFactor → Bool
  | [] => true
  | (b, eo, f) :: rest =>
      decide (b = p) &&
        (match eo with
         | none => decide (f = DEFAULT_ADJ_FACTOR) && rest.isEmpty
         | some e =>
             decide (b.survey_cum_dist < e.survey_cum_dist) &&
               decide (f = factorFormula b e) && segChainB e rest)

/-- A nonempty factor sequence chained from its own first begin point. -/
def fsWFB : List AdjFactor → Bool
  | [] => false
  | (b, eo, f) :: rest => segChainB b ((b, eo, f) :: rest)

/-- The keys of a stream-distance-info dictionary. -/
def keysOf (l : SdiDict) : List String := l.map Prod.fst

/-- Well-formedness of a built table: unique keys, at least one stream,
every entry keyed by its own (nonempty) LLID with a well-formed factor
sequence. -/
def TableWF (dict : SdiDict) : Prop :=
  (keysOf dict).Nodup ∧ dict ≠ [] ∧
    ∀ e ∈ dict, e.2.llid = e.1 ∧ e.1 ≠ "" ∧ fsWFB e.2.adj_factors = true

/-- The builder's documented input precondition, relative to the stream
`prev` currently being read and the last cumulative distance `last` seen on
it: rows with an empty LLID are ignored, consecutive rows of one stream
carry strictly increasing cumulative distances, and a row for a different
stream starts a new block. -/
def incrB : String → ℤ → List SurveyRow → Bool
  | _, _, [] => true
  | prev, last, r :: rest =>
      if r.llid = "" then incrB prev last rest
      else if r.llid = prev then decide (last < r.cum_dist) && incrB prev r.cum_dist rest
      else incrB r.llid r.cum_dist rest

/-- Whether a list of survey distances has two adjacent equal entries. -/
def hasAdjEq : List ℤ → Bool
  | a :: b :: t => decide (a = b) || hasAdjEq (b :: t)
  | _ => false

/-- The reported distances of the control points among `rows` (rows
carrying both coordinates), for rows after the first of a stream. -/
def controlDistsTail (rows : List SurveyRow) : List ℤ :=
  (rows.filter (fun r => (getXY r).isSome)).map (fun r => r.cum_dist)

/-- The builder's loop invariant, relative to the last reported distance
`lastD` seen on the current stream: unique dictionary keys; every entry
keyed by its own nonempty LLID; an empty `prev_llid` only in the initial
state (empty dictionary); once a stream is active, `begin_sync_point`
holds the last control point, the accumulated factors form a closed chain
ending there at or below `lastD`, the stream has a dictionary entry, and a
cleared `need_adj_factor` implies at least one accumulated factor; entries
of other streams are fully well-formed. -/
def StateWF (st : BuildState) (lastD : ℤ) : Prop :=
  (keysOf st.dict).Nodup ∧
  (∀ e ∈ st.dict, e.2.llid = e.1 ∧ e.1 ≠ "") ∧
  (st.prev_llid = "" → st.dict = []) ∧
  (st.prev_llid ≠ "" →
    ∃ p0 bp, st.begin_sync_point = some bp ∧ closedChainB p0 st.adj_factors bp = true ∧
      bp.survey_cum_dist ≤ lastD ∧ st.prev_llid ∈ keysOf st.dict ∧
      (st.need_adj_factor = false → st.adj_factors ≠ [])) ∧
  (∀ e ∈ st.dict, e.1 ≠ st.prev_llid → fsWFB e.2.adj_factors = true)

/-! ### Concrete instances used by counterexamples and witnesses -/

/-- Geometry provider for the spec's §8 scenario: the point (10,10)
projects to streamline distance 0, the point (20,20) to 1100. -/
def gpC1 : GeomProvider := fun _ x _ => if x = 10 then 0 else 1100

/-- The spec's §8 scenario input: feature "100", rows (0, coords (10,10)),
(500, no coords), (1000, coords (20,20)). -/
def rowsC1 : List SurveyRow :=
  [⟨"100", "Big Creek", "River", 0, some 10, some 10, "", ""⟩,
   ⟨"100", "Big Creek", "River", 500, none, none, "", ""⟩,
   ⟨"100", "Big Creek", "River", 1000, some 20, some 20, "", ""⟩]

/-- The scenario's first control point: survey 0, streamline 0. -/
def pC1b : SyncPoint := ⟨some 10, some 10, "", 0, 0, ""⟩

/-- The scenario's second control point: survey 1000, streamline 1100. -/
def pC1e : SyncPoint := ⟨some 20, some 20, "", 1000, 1100, ""⟩

/-- The table the builder actually produces for `rowsC1`: a single closed
segment from (0,0) to (1000,1100) with factor 1.1 and no trailing
open-end segment. -/
def tblC1 : SdiDict :=
  [("100", ⟨"100", "Big Creek", "River", [(pC1b, some pC1e, 11/10)]⟩)]

/-- A geometry provider whose reported distances are never used. -/
def gpZero : GeomProvider := fun _ _ _ => 0

/-- A single survey row whose first reported distance is 100, not 0. -/
def rows3 : List SurveyRow := [⟨"7", "s", "t", 100, none, none, "n", "c"⟩]

/-- The table built from `rows3`: its only segment begins at survey
distance 100. -/
def tbl3 : SdiDict :=
  [("7", ⟨"7", "s", "t", [(⟨none, none, "n", 100, 100, "c"⟩, none, 1)]⟩)]

/-- A one-feature table whose last (and only) segment is closed:
(0,0)-(1000,1100) with factor 1.1. -/
def tbl5 : SdiDict :=
  [("A", ⟨"A", "s", "t",
    [(⟨some 10, some 10, "", 0, 0, ""⟩,
      some ⟨some 20, some 20, "", 1000, 1100, ""⟩, 11/10)]⟩)]

/-- First control point of `tbl6`: survey 100, streamline 500. -/
def p6A : SyncPoint := ⟨none, none, "", 100, 500, ""⟩

/-- Second control point of `tbl6`: survey 200, streamline 700. -/
def p6B : SyncPoint := ⟨none, none, "", 200, 700, ""⟩

/-- A reloaded-style table whose segments start at survey distance 100, so
that survey distance 0 matches no segment. -/
def tbl6 : SdiDict :=
  [("A", ⟨"A", "s", "t", [(p6A, some p6B, 2), (p6B, some sentinelEnd, 1)]⟩)]

/-- First of two control rows at reported distance 50. -/
def rowDeg1 : SurveyRow := ⟨"9", "s", "t", 50, some 1, some 1, "", ""⟩

/-- Second control row, also at reported distance 50. -/
def rowDeg2 : SurveyRow := ⟨"9", "s", "t", 50, some 2, some 2, "", ""⟩

/-- Two rows of one stream with coordinates and equal reported distances. -/
def rowsDeg : List SurveyRow := [rowDeg1, rowDeg2]

/-- The single control point of `tblR`. -/
def pR : SyncPoint := ⟨none, none, "n", 100, 100, "c"⟩

/-- A one-feature table with one open-ended factor, for the round-trip
counterexample. -/
def tblR : SdiDict :=
  [("100", ⟨"100", "s", "t", [(pR, none, 1)]⟩)]

/-- A reloaded-style trailing segment's begin point used in witnesses. -/
def pW : SyncPoint := ⟨some 3, some 4, "", 10, 12, ""⟩

/-- A two-feature table exercising sorting, closed segments and open ends
in the round-trip witness. -/
def tblW : SdiDict :=
  [("B", ⟨"B", "sb", "tb",
     [(⟨some 1, some 2, "", 0, 0, ""⟩, some pW, 6/5), (pW, none, 1)]⟩),
   ("A", ⟨"A", "sa", "ta", [(⟨none, none, "", 5, 5, ""⟩, none, 1)]⟩)]

/-- The reload of `tblR`: its open end materialized as `sentinelEnd`. -/
def tblRmat : SdiDict :=
  [("100", ⟨"100", "s", "t", [(pR, some sentinelEnd, 1)]⟩)]

/-- The single CSV row the writer produces for `tblR`. -/
def rowR : CsvRow :=
  ⟨quote_llid "100", "s", "t", 100, 100, none, none, "n", "c",
   999999, 999999, none, none, "", "", 1⟩

/-! ## Lemmas -/

/-- Keys of the updated dictionary are unchanged by `setFactors`. -/
theorem setFactors_keys {l : SdiDict} {k : String} {fs : List AdjFactor} {d : SdiDict}
    (hd : setFactors l k fs = some d) : keysOf d = keysOf l := by
  induction l generalizing d with
  | nil => simp [setFactors] at hd
  | cons a t ih =>
      obtain ⟨k0, s0⟩ := a
      unfold setFactors at hd
      by_cases hk : k0 = k
      · rw [if_pos hk, Option.some.injEq] at hd
        subst hd; simp [keysOf]
      · rw [if_neg hk] at hd
        cases hst : setFactors t k fs with
        | none => rw [hst] at hd; cases hd
        | some r =>
            rw [hst] at hd
            cases hd
            simp only [keysOf, List.map_cons, List.cons.injEq]
            exact ⟨by trivial, ih hst⟩

/-- `setFactors` succeeds exactly when the key is present. -/
theorem setFactors_isSome {l : SdiDict} {k : String} (fs : List AdjFactor)
    (h : k ∈ keysOf l) : ∃ d, setFactors l k fs = some d := by
  induction l with
  | nil => simp [keysOf] at h
  | cons a t ih =>
      obtain ⟨k0, s0⟩ := a
      unfold setFactors
      by_cases hk : k0 = k
      · exact ⟨_, by rw [if_pos hk]⟩
      · simp only [keysOf, List.map_cons, List.mem_cons] at h
        rcases h with h | h
        · exact absurd h.symm hk
        · obtain ⟨d, hd⟩ := ih h
          exact ⟨(k0, s0) :: d, by rw [if_neg hk, hd]⟩

/-- Every entry of the updated dictionary is an old entry or carries the
new factor list. -/
theorem mem_setFactors {l : SdiDict} {k : String} {fs : List AdjFactor} {d : SdiDict}
    (hd : setFactors l k fs = some d) :
    ∀ e ∈ d, e ∈ l ∨ (e.1 = k ∧ ∃ s, (k, s) ∈ l ∧ e.2 = { s with adj_factors := fs }) := by
  induction l generalizing d with
  | nil => simp [setFactors] at hd
  | cons a t ih =>
      obtain ⟨k0, s0⟩ := a
      unfold setFactors at hd
      by_cases hk : k0 = k
      · rw [if_pos hk, Option.some.injEq] at hd
        subst hd
        intro e he
        rcases List.mem_cons.mp he with he | he
        · subst he
          exact Or.inr ⟨hk, s0, by rw [← hk]; exact List.mem_cons_self _ _, rfl⟩
        · exact Or.inl (List.mem_cons_of_mem _ he)
      · rw [if_neg hk] at hd
        cases hst : setFactors t k fs with
        | none => rw [hst] at hd; cases hd
        | some r =>
            rw [hst] at hd
            cases hd
            intro e he
            rcases List.mem_cons.mp he with he | he
            · subst he; exact Or.inl (List.mem_cons_self _ _)
            · rcases ih hst e he with h | ⟨h1, s, h2, h3⟩
              · exact Or.inl (List.mem_cons_of_mem _ h)
              · exact Or.inr ⟨h1, s, List.mem_cons_of_mem _ h2, h3⟩

/-- An updated entry for a key not among the keys of the prefix. -/
theorem setFactors_append {l : SdiDict} {k : String} (s : StreamDistanceInfo)
    (fs : List AdjFactor) (h : k ∉ keysOf l) :
    setFactors (l ++ [(k, s)]) k fs = some (l ++ [(k, { s with adj_factors := fs })]) := by
  induction l with
  | nil => simp [setFactors]
  | cons a t ih =>
      obtain ⟨k0, s0⟩ := a
      have hk : k0 ≠ k := by
        intro hc; exact h (by simp [keysOf, hc])
      have ht : k ∉ keysOf t := fun hc => h (by simp [keysOf] at hc ⊢; exact Or.inr hc)
      simp only [List.cons_append]
      unfold setFactors
      rw [if_neg hk, ih ht]

/-- Entries of an `insertReplace` result are old entries or the new one. -/
theorem mem_insertReplace {l : SdiDict} {k : String} {s : StreamDistanceInfo} :
    ∀ e ∈ insertReplace l k s, e ∈ l ∨ e = (k, s) := by
  induction l with
  | nil => intro e he; simp [insertReplace] at he; exact Or.inr he
  | cons a t ih =>
      obtain ⟨k0, s0⟩ := a
      intro e he
      unfold insertReplace at he
      by_cases hk : k0 = k
      · rw [if_pos hk] at he
        rcases List.mem_cons.mp he with he | he
        · exact Or.inr (by rw [he, hk])
        · exact Or.inl (List.mem_cons_of_mem _ he)
      · rw [if_neg hk] at he
        rcases List.mem_cons.mp he with he | he
        · exact Or.inl (by rw [he]; exact List.mem_cons_self _ _)
        · rcases ih e he with h | h
          · exact Or.inl (List.mem_cons_of_mem _ h)
          · exact Or.inr h

/-- An entry of an `insertReplace` result with a different key is old. -/
theorem mem_insertReplace_ne {l : SdiDict} {k : String} {s : StreamDistanceInfo}
    {e : String × StreamDistanceInfo} (he : e ∈ insertReplace l k s) (hne : e.1 ≠ k) :
    e ∈ l := by
  rcases mem_insertReplace e he with h | h
  · exact h
  · exact absurd (by rw [h]) hne

/-- The inserted key is a key of the result. -/
theorem key_mem_insertReplace {l : SdiDict} (k : String) (s : StreamDistanceInfo) :
    k ∈ keysOf (insertReplace l k s) := by
  induction l with
  | nil => simp [insertReplace, keysOf]
  | cons a t ih =>
      obtain ⟨k0, s0⟩ := a
      unfold insertReplace
      by_cases hk : k0 = k
      · rw [if_pos hk]; simp [keysOf, hk]
      · rw [if_neg hk]; simp [keysOf] at ih ⊢; exact Or.inr ih

/-- Keys of an `insertReplace` result come from the old keys or are the
inserted key. -/
theorem mem_keysOf_insertReplace {l : SdiDict} {k a : String} {s : StreamDistanceInfo}
    (h : a ∈ keysOf (insertReplace l k s)) : a ∈ keysOf l ∨ a = k := by
  simp only [keysOf, List.mem_map] at h
  obtain ⟨e, he, hae⟩ := h
  rcases mem_insertReplace e he with h | h
  · refine Or.inl ?_
    unfold keysOf
    exact List.mem_map.mpr ⟨e, h, hae⟩
  · exact Or.inr (by rw [← hae, h])

/-- `insertReplace` keeps keys duplicate-free. -/
theorem nodup_keysOf_insertReplace {l : SdiDict} {k : String} {s : StreamDistanceInfo}
    (h : (keysOf l).Nodup) : (keysOf (insertReplace l k s)).Nodup := by
  induction l with
  | nil => simp [insertReplace, keysOf]
  | cons a t ih =>
      obtain ⟨k0, s0⟩ := a
      simp only [keysOf, List.map_cons, List.nodup_cons] at h
      unfold insertReplace
      by_cases hk : k0 = k
      · rw [if_pos hk]
        simp only [keysOf, List.map_cons, List.nodup_cons]
        exact h
      · rw [if_neg hk]
        simp only [keysOf, List.map_cons, List.nodup_cons]
        refine ⟨fun hc => ?_, ih h.2⟩
        rcases mem_keysOf_insertReplace hc with hc | hc
        · exact h.1 hc
        · exact hk hc

/-- Inserting a genuinely new key appends it at the end. -/
theorem insertReplace_notin {l : SdiDict} {k : String} (s : StreamDistanceInfo)
    (h : k ∉ keysOf l) : insertReplace l k s = l ++ [(k, s)] := by
  induction l with
  | nil => simp [insertReplace]
  | cons a t ih =>
      obtain ⟨k0, s0⟩ := a
      have hk : k0 ≠ k := fun hc => h (by simp [keysOf, hc])
      have ht : k ∉ keysOf t := fun hc => h (by simp [keysOf] at hc ⊢; exact Or.inr hc)
      unfold insertReplace
      rw [if_neg hk, ih ht]
      simp

/-- A successful lookup means the pair is an entry. -/
theorem lookupSDI_mem {l : SdiDict} {k : String} {s : StreamDistanceInfo}
    (h : lookupSDI l k = some s) : (k, s) ∈ l := by
  induction l with
  | nil => simp [lookupSDI] at h
  | cons a t ih =>
      obtain ⟨k0, s0⟩ := a
      unfold lookupSDI at h
      by_cases hk : k0 = k
      · rw [if_pos hk] at h
        cases h
        exact hk ▸ List.mem_cons_self _ _
      · rw [if_neg hk] at h
        exact List.mem_cons_of_mem _ (ih h)

/-- Every factor tuple the CSV reader ever stores carries a concrete end
point. -/
theorem read_loop_ends : ∀ (rows : List CsvRow) (dict : SdiDict) (afs : List AdjFactor)
    (prev : String) (out : SdiDict),
    (∀ e ∈ dict, ∀ af ∈ e.2.adj_factors, (af.2.1).isSome = true) →
    (∀ af ∈ afs, (af.2.1).isSome = true) →
    read_loop rows dict afs prev = .ok out →
    ∀ e ∈ out, ∀ af ∈ e.2.adj_factors, (af.2.1).isSome = true := by
  intro rows
  induction rows with
  | nil =>
      intro dict afs prev out hdict hafs hr
      unfold read_loop at hr
      cases hsf : setFactors dict prev afs with
      | none => rw [hsf] at hr; cases hr
      | some d =>
          rw [hsf] at hr
          cases hr
          intro e he af haf
          rcases mem_setFactors hsf e he with h | ⟨_, s, _, h3⟩
          · exact hdict e h af haf
          · rw [h3] at haf; exact hafs af haf
  | cons r rest ih =>
      intro dict afs prev out hdict hafs hr
      unfold read_loop at hr
      by_cases hnew : remove_squotes r.locationID = prev
      · rw [if_pos hnew] at hr
        refine ih dict (afs ++ [parsedFactor r]) prev out hdict ?_ hr
        intro af haf
        rcases List.mem_append.mp haf with h | h
        · exact hafs af h
        · simp at h; rw [h]; rfl
      · rw [if_neg hnew] at hr
        by_cases hprev : prev = ""
        · rw [if_pos hprev] at hr
          refine ih _ _ _ out ?_ ?_ hr
          · intro e he af haf
            rcases mem_insertReplace e he with h | h
            · exact hdict e h af haf
            · rw [h] at haf; simp at haf
          · intro af haf
            simp at haf; rw [haf]; rfl
        · rw [if_neg hprev] at hr
          cases hsf : setFactors dict prev afs with
          | none => rw [hsf] at hr; cases hr
          | some d =>
              rw [hsf] at hr
              refine ih _ _ _ out ?_ ?_ hr
              · intro e he af haf
                rcases mem_insertReplace e he with h | h
                · rcases mem_setFactors hsf e h with h2 | ⟨_, s, _, h3⟩
                  · exact hdict e h2 af haf
                  · rw [h3] at haf; exact hafs af haf
                · rw [h] at haf; simp at haf
              · intro af haf
                simp at haf; rw [haf]; rfl

/-- Removing single quotes undoes `quote_llid` on a quote-free string. -/
theorem remove_squotes_quote (s : String) (h : squote ∉ s.data) :
    remove_squotes (quote_llid s) = s := by
  have h1 : (squote :: (s.data ++ [squote])).filter (fun c => c ≠ squote) = s.data := by
    rw [List.filter_cons_of_neg (by simp), List.filter_append]
    rw [List.filter_eq_self.mpr (fun a ha => by simp; exact fun he => h (he ▸ ha))]
    simp
  show String.mk ((squote :: (s.data ++ [squote])).filter (fun c => c ≠ squote)) = s
  rw [h1]

/-- Concrete evaluation: writing the one-open-segment table `tblR`. -/
theorem write_tblR : write_sdi_to_csv_file tblR = [rowR] := by
  simp [write_sdi_to_csv_file, sortByKey, insertByKey, writeBlock, tblR, pR, rowR,
    row_for_factor, expand_sync_pt, quote_llid, DEFAULT_BEGIN_DIST, DEFAULT_END_DIST]

/-- Concrete evaluation: reading the single row `rowR` yields the
materialized table `tblRmat`. -/
theorem read_rowR : read_sdi_from_csvfile [rowR] = .ok tblRmat := by
  have hq : remove_squotes (quote_llid "100") = "100" :=
    of_decide_eq_true (by with_unfolding_all rfl)
  simp [read_sdi_from_csvfile, read_loop, rowR, hq, parsedFactor, parsedBegin, parsedEnd,
    insertReplace, setFactors, tblRmat, pR, sentinelEnd, DEFAULT_END_DIST]


/-! ### Scanning lemmas for `adjust_stream_distance` -/

/-- A matching head tuple resolves immediately by the segment's factor. -/
theorem adjFrom_cons_match {d : ℚ} {b e : SyncPoint} {f : ℚ} {rest : List AdjFactor}
    {s : Option (ℤ × ℚ)} (h : segMatches d b e = true) :
    adjFrom d ((b, some e, f) :: rest) s
      = .ok (b.streamline_cum_dist + (d - (b.survey_cum_dist : ℚ)) * f) := by
  simp [adjFrom, adjScan, h]

/-- A non-matching head tuple is skipped, leaving its begin data as the
loop state. -/
theorem adjFrom_cons_skip {d : ℚ} {b e : SyncPoint} {f : ℚ} {rest : List AdjFactor}
    {s : Option (ℤ × ℚ)} (h : segMatches d b e = false) :
    adjFrom d ((b, some e, f) :: rest) s
      = adjFrom d rest (some (b.survey_cum_dist, b.streamline_cum_dist)) := by
  simp only [adjFrom, adjScan, h]
  simp

/-- Begins of a chain are at or after the chain's start. -/
theorem seg_begin_ge : ∀ (fs : List AdjFactor) (p : SyncPoint), segChainB p fs = true →
    ∀ b eo f, (b, eo, f) ∈ fs → p.survey_cum_dist ≤ b.survey_cum_dist := by
  intro fs
  induction fs with
  | nil => intro p h b eo f hm; simp at hm
  | cons hd rest ih =>
      obtain ⟨b0, eo0, f0⟩ := hd
      intro p h b eo f hm
      cases eo0 with
      | none =>
          simp only [segChainB, Bool.and_eq_true, decide_eq_true_eq] at h
          obtain ⟨hb0, _, hrest⟩ := h
          rcases List.mem_cons.mp hm with hm | hm
          · simp only [Prod.mk.injEq] at hm
            exact le_of_eq (by rw [hm.1, hb0])
          · rw [List.isEmpty_iff.mp hrest] at hm; simp at hm
      | some e0 =>
          simp only [segChainB, Bool.and_eq_true, decide_eq_true_eq] at h
          obtain ⟨hb0, ⟨hlt, _⟩, hch⟩ := h
          rcases List.mem_cons.mp hm with hm | hm
          · simp only [Prod.mk.injEq] at hm
            exact le_of_eq (by rw [hm.1, hb0])
          · calc p.survey_cum_dist = b0.survey_cum_dist := by rw [hb0]
              _ ≤ e0.survey_cum_dist := le_of_lt hlt
              _ ≤ b.survey_cum_dist := ih e0 hch b eo f hm

/-- Closed members of a chain have strictly wider ends and the computed
factor. -/
theorem seg_mem_closed : ∀ (fs : List AdjFactor) (p : SyncPoint), segChainB p fs = true →
    ∀ b e f, (b, some e, f) ∈ fs →
      b.survey_cum_dist < e.survey_cum_dist ∧ f = factorFormula b e := by
  intro fs
  induction fs with
  | nil => intro p h b e f hm; simp at hm
  | cons hd rest ih =>
      obtain ⟨b0, eo0, f0⟩ := hd
      intro p h b e f hm
      cases eo0 with
      | none =>
          simp only [segChainB, Bool.and_eq_true, decide_eq_true_eq] at h
          obtain ⟨_, _, hrest⟩ := h
          rcases List.mem_cons.mp hm with hm | hm
          · simp at hm
          · rw [List.isEmpty_iff.mp hrest] at hm; simp at hm
      | some e0 =>
          simp only [segChainB, Bool.and_eq_true, decide_eq_true_eq] at h
          obtain ⟨_, ⟨hlt, hf⟩, hch⟩ := h
          rcases List.mem_cons.mp hm with hm | hm
          · simp only [Prod.mk.injEq, Option.some.injEq] at hm
            obtain ⟨hb, he, hf2⟩ := hm
            subst hb; subst he; subst hf2
            exact ⟨hlt, hf⟩
          · exact ih e0 hch b e f hm

/-- A chain member whose begin is back at the chain's start is the head. -/
theorem seg_begin_eq : ∀ (fs : List AdjFactor) (p : SyncPoint), segChainB p fs = true →
    ∀ b eo f, (b, eo, f) ∈ fs → b.survey_cum_dist ≤ p.survey_cum_dist → b = p := by
  intro fs
  induction fs with
  | nil => intro p h b eo f hm; simp at hm
  | cons hd rest ih =>
      obtain ⟨b0, eo0, f0⟩ := hd
      intro p h b eo f hm hle
      cases eo0 with
      | none =>
          simp only [segChainB, Bool.and_eq_true, decide_eq_true_eq] at h
          obtain ⟨hb0, _, hrest⟩ := h
          rcases List.mem_cons.mp hm with hm | hm
          · simp only [Prod.mk.injEq] at hm
            rw [hm.1]; exact hb0
          · rw [List.isEmpty_iff.mp hrest] at hm; simp at hm
      | some e0 =>
          simp only [segChainB, Bool.and_eq_true, decide_eq_true_eq] at h
          obtain ⟨hb0, ⟨hlt, _⟩, hch⟩ := h
          rcases List.mem_cons.mp hm with hm | hm
          · simp only [Prod.mk.injEq] at hm
            rw [hm.1]; exact hb0
          · exfalso
            have h1 : e0.survey_cum_dist ≤ b.survey_cum_dist :=
              seg_begin_ge rest e0 hch b eo f hm
            have h2 : b0.survey_cum_dist < b.survey_cum_dist := lt_of_lt_of_le hlt h1
            rw [hb0] at h2
            exact absurd hle (not_le.mpr h2)

/-- Resolving at a closed segment's boundary distances reproduces that
segment's control points exactly, for any well-chained factor sequence and
any incoming loop state. -/
theorem chain_boundary : ∀ (fs : List AdjFactor) (p : SyncPoint), segChainB p fs = true →
    ∀ b e f, (b, some e, f) ∈ fs →
    (∀ s, adjFrom (b.survey_cum_dist : ℚ) fs s = .ok b.streamline_cum_dist) ∧
    (∀ s, adjFrom (e.survey_cum_dist : ℚ) fs s = .ok e.streamline_cum_dist) := by
  intro fs
  induction fs with
  | nil => intro p h b e f hm; simp at hm
  | cons hd rest ih =>
      obtain ⟨b0, eo0, f0⟩ := hd
      intro p h b e f hm
      cases eo0 with
      | none =>
          simp only [segChainB, Bool.and_eq_true, decide_eq_true_eq] at h
          obtain ⟨hb0, _, hrest⟩ := h
          rcases List.mem_cons.mp hm with hm | hm
          · simp at hm
          · rw [List.isEmpty_iff.mp hrest] at hm; simp at hm
      | some e0 =>
          simp only [segChainB, Bool.and_eq_true, decide_eq_true_eq] at h
          obtain ⟨hb0, ⟨hlt, hf0⟩, hch⟩ := h
          have hltQ : ((b0.survey_cum_dist : ℚ)) < (e0.survey_cum_dist : ℚ) := by
            exact_mod_cast hlt
          have hne : ((e0.survey_cum_dist : ℚ) - (b0.survey_cum_dist : ℚ)) ≠ 0 :=
            sub_ne_zero.mpr (ne_of_gt hltQ)
          rcases List.mem_cons.mp hm with hm | hm
          · simp only [Prod.mk.injEq, Option.some.injEq] at hm
            obtain ⟨hb, he, hf2⟩ := hm
            rw [hb, he]
            constructor
            · intro s
              have hmt : segMatches ((b0.survey_cum_dist : ℚ)) b0 e0 = true := by
                simp only [segMatches, Bool.and_eq_true, decide_eq_true_eq]
                exact ⟨le_refl _, le_of_lt hltQ⟩
              rw [adjFrom_cons_match hmt]
              congr 1
              ring
            · intro s
              have hmt : segMatches ((e0.survey_cum_dist : ℚ)) b0 e0 = true := by
                simp only [segMatches, Bool.and_eq_true, decide_eq_true_eq]
                exact ⟨le_of_lt hltQ, le_refl _⟩
              rw [adjFrom_cons_match hmt, hf0]
              congr 1
              rw [factorFormula]
              field_simp
          · have hgeb : e0.survey_cum_dist ≤ b.survey_cum_dist :=
              seg_begin_ge rest e0 hch b (some e) f hm
            have hlt2 : b.survey_cum_dist < e.survey_cum_dist :=
              (seg_mem_closed rest e0 hch b e f hm).1
            constructor
            · intro s
              cases hM : segMatches ((b.survey_cum_dist : ℚ)) b0 e0 with
              | false =>
                  rw [adjFrom_cons_skip hM]
                  exact (ih e0 hch b e f hm).1 _
              | true =>
                  have h2 : ((b.survey_cum_dist : ℚ)) ≤ (e0.survey_cum_dist : ℚ) := by
                    simp only [segMatches, Bool.and_eq_true, decide_eq_true_eq] at hM
                    exact hM.2
                  have hble : b.survey_cum_dist ≤ e0.survey_cum_dist := by exact_mod_cast h2
                  have hbe : b = e0 := seg_begin_eq rest e0 hch b (some e) f hm hble
                  rw [adjFrom_cons_match hM, hf0, hbe]
                  congr 1
                  rw [factorFormula]
                  field_simp
            · intro s
              have h3 : e0.survey_cum_dist < e.survey_cum_dist := lt_of_le_of_lt hgeb hlt2
              have hM : segMatches ((e.survey_cum_dist : ℚ)) b0 e0 = false := by
                simp only [segMatches, Bool.and_eq_false_iff, decide_eq_false_iff_not, not_le]
                right
                exact_mod_cast h3
              rw [adjFrom_cons_skip hM]
              exact (ih e0 hch b e f hm).2 _

/-- A closed chain's end is at or after its start. -/
theorem closedChainB_le : ∀ (fs : List AdjFactor) (p q : SyncPoint),
    closedChainB p fs q = true → p.survey_cum_dist ≤ q.survey_cum_dist := by
  intro fs
  induction fs with
  | nil =>
      intro p q h
      simp only [closedChainB, decide_eq_true_eq] at h
      exact le_of_eq (by rw [h])
  | cons hd rest ih =>
      obtain ⟨b0, eo0, f0⟩ := hd
      intro p q h
      cases eo0 with
      | none => simp [closedChainB] at h
      | some e0 =>
          simp only [closedChainB, Bool.and_eq_true, decide_eq_true_eq] at h
          obtain ⟨hb0, ⟨hlt, _⟩, hch⟩ := h
          calc p.survey_cum_dist = b0.survey_cum_dist := by rw [hb0]
            _ ≤ e0.survey_cum_dist := le_of_lt hlt
            _ ≤ q.survey_cum_dist := ih e0 q hch

/-- Scanning past an entire closed chain followed by a trailing default
segment from the chain's end: every distance beyond the chain's end
resolves by the default factor from that end point, whether or not it
falls inside the trailing segment. -/
theorem closed_trailing : ∀ (fs : List AdjFactor) (p B E : SyncPoint) (d : ℚ)
    (s : Option (ℤ × ℚ)),
    closedChainB p fs B = true → ((B.survey_cum_dist : ℚ)) < d →
    adjFrom d (fs ++ [(B, some E, DEFAULT_ADJ_FACTOR)]) s
      = .ok (B.streamline_cum_dist + (d - (B.survey_cum_dist : ℚ)) * DEFAULT_ADJ_FACTOR) := by
  intro fs
  induction fs with
  | nil =>
      intro p B E d s h hd
      simp only [List.nil_append]
      cases hM : segMatches d B E with
      | true =>
          rw [adjFrom_cons_match hM]
      | false =>
          rw [adjFrom_cons_skip hM]
          simp [adjFrom, adjScan]
  | cons hd0 rest ih =>
      obtain ⟨b0, eo0, f0⟩ := hd0
      intro p B E d s h hd
      cases eo0 with
      | none => simp [closedChainB] at h
      | some e0 =>
          simp only [closedChainB, Bool.and_eq_true, decide_eq_true_eq] at h
          obtain ⟨hb0, ⟨hlt, _⟩, hch⟩ := h
          have hle : e0.survey_cum_dist ≤ B.survey_cum_dist := closedChainB_le rest e0 B hch
          have hM : segMatches d b0 e0 = false := by
            simp only [segMatches, Bool.and_eq_false_iff, decide_eq_false_iff_not, not_le]
            right
            calc ((e0.survey_cum_dist : ℚ)) ≤ (B.survey_cum_dist : ℚ) := by exact_mod_cast hle
              _ < d := hd
          rw [List.cons_append, adjFrom_cons_skip hM]
          exact ih e0 B E d _ hch hd

/-- When no tuple of a concretely-ended factor sequence matches, the scan
falls through to the last tuple's begin data and the default factor. -/
theorem nomatch_fallback : ∀ (fs : List AdjFactor) (laf : AdjFactor) (d : ℚ)
    (s : Option (ℤ × ℚ)),
    fs.getLast? = some laf →
    (∀ af ∈ fs, (af.2.1).isSome = true) →
    (∀ af ∈ fs, ∀ e, af.2.1 = some e → segMatches d af.1 e = false) →
    adjFrom d fs s
      = .ok (laf.1.streamline_cum_dist +
          (d - (laf.1.survey_cum_dist : ℚ)) * DEFAULT_ADJ_FACTOR) := by
  intro fs
  induction fs with
  | nil => intro laf d s h; simp at h
  | cons a t ih =>
      obtain ⟨b0, eo0, f0⟩ := a
      intro laf d s h hend hnm
      have hsome : eo0.isSome = true := hend (b0, eo0, f0) (List.mem_cons_self _ _)
      cases eo0 with
      | none => simp at hsome
      | some e0 =>
          have hM : segMatches d b0 e0 = false :=
            hnm (b0, some e0, f0) (List.mem_cons_self _ _) e0 rfl
          rw [adjFrom_cons_skip hM]
          cases t with
          | nil =>
              simp only [List.getLast?_singleton, Option.some.injEq] at h
              rw [← h]
              simp [adjFrom, adjScan]
          | cons a2 t2 =>
              rw [List.getLast?_cons_cons] at h
              exact ih laf d _ h (fun af haf => hend af (List.mem_cons_of_mem _ haf))
                (fun af haf => hnm af (List.mem_cons_of_mem _ haf))

/-! ### Chain construction lemmas for the builder invariant -/

/-- A closed chain is a well-formed chain. -/
theorem segChainB_of_closedB : ∀ (fs : List AdjFactor) (p q : SyncPoint),
    closedChainB p fs q = true → segChainB p fs = true := by
  intro fs
  induction fs with
  | nil => intro p q h; rfl
  | cons hd rest ih =>
      obtain ⟨b0, eo0, f0⟩ := hd
      intro p q h
      cases eo0 with
      | none => simp [closedChainB] at h
      | some e0 =>
          simp only [closedChainB, Bool.and_eq_true, decide_eq_true_eq] at h
          obtain ⟨hb0, ⟨hlt, hf⟩, hch⟩ := h
          simp only [segChainB, Bool.and_eq_true, decide_eq_true_eq]
          exact ⟨hb0, ⟨hlt, hf⟩, ih e0 q hch⟩

/-- Appending the owed trailing default segment to a closed chain yields a
well-formed chain. -/
theorem segChainB_closed_app : ∀ (fs : List AdjFactor) (p q : SyncPoint),
    closedChainB p fs q = true →
    segChainB p (fs ++ [(q, none, DEFAULT_ADJ_FACTOR)]) = true := by
  intro fs
  induction fs with
  | nil =>
      intro p q h
      simp only [closedChainB, decide_eq_true_eq] at h
      simp only [List.nil_append, segChainB, Bool.and_eq_true, decide_eq_true_eq]
      exact ⟨h, trivial, rfl⟩
  | cons hd rest ih =>
      obtain ⟨b0, eo0, f0⟩ := hd
      intro p q h
      cases eo0 with
      | none => simp [closedChainB] at h
      | some e0 =>
          simp only [closedChainB, Bool.and_eq_true, decide_eq_true_eq] at h
          obtain ⟨hb0, ⟨hlt, hf⟩, hch⟩ := h
          simp only [List.cons_append, segChainB, Bool.and_eq_true, decide_eq_true_eq]
          exact ⟨hb0, ⟨hlt, hf⟩, ih e0 q hch⟩

/-- Extending a closed chain by one freshly computed closed segment. -/
theorem closedChainB_app : ∀ (fs : List AdjFactor) (p q e : SyncPoint),
    closedChainB p fs q = true → q.survey_cum_dist < e.survey_cum_dist →
    closedChainB p (fs ++ [(q, some e, factorFormula q e)]) e = true := by
  intro fs
  induction fs with
  | nil =>
      intro p q e h hlt
      simp only [closedChainB, decide_eq_true_eq] at h
      simp only [List.nil_append, closedChainB, Bool.and_eq_true, decide_eq_true_eq]
      exact ⟨h, ⟨hlt, trivial⟩, trivial⟩
  | cons hd rest ih =>
      obtain ⟨b0, eo0, f0⟩ := hd
      intro p q e h hlt
      cases eo0 with
      | none => simp [closedChainB] at h
      | some e0 =>
          simp only [closedChainB, Bool.and_eq_true, decide_eq_true_eq] at h
          obtain ⟨hb0, ⟨hlt0, hf⟩, hch⟩ := h
          simp only [List.cons_append, closedChainB, Bool.and_eq_true, decide_eq_true_eq]
          exact ⟨hb0, ⟨hlt0, hf⟩, ih e0 q e hch hlt⟩

/-- The head begin of a closed chain is the chain's start. -/
theorem closedChainB_head {b0 : SyncPoint} {eo0 : Option SyncPoint} {f0 : ℚ}
    {rest : List AdjFactor} {p q : SyncPoint}
    (h : closedChainB p ((b0, eo0, f0) :: rest) q = true) : b0 = p := by
  cases eo0 with
  | none => simp [closedChainB] at h
  | some e0 =>
      simp only [closedChainB, Bool.and_eq_true, decide_eq_true_eq] at h
      exact h.1

/-- The flushed factor list of a stream (closed chain plus owed trailing
segment) is well-formed. -/
theorem fsWFB_closed_app (fs : List AdjFactor) (p q : SyncPoint)
    (h : closedChainB p fs q = true) :
    fsWFB (fs ++ [(q, none, DEFAULT_ADJ_FACTOR)]) = true := by
  cases fs with
  | nil =>
      have h2 := segChainB_closed_app [] p q h
      simp only [closedChainB, decide_eq_true_eq] at h
      rw [← h] at h2
      simpa [fsWFB] using h2
  | cons hd rest =>
      obtain ⟨b0, eo0, f0⟩ := hd
      have hb0 : b0 = p := closedChainB_head h
      have h2 := segChainB_closed_app ((b0, eo0, f0) :: rest) p q h
      rw [← hb0] at h2
      simpa [fsWFB, List.cons_append] using h2

/-- A nonempty closed chain is well-formed as stored. -/
theorem fsWFB_closed (fs : List AdjFactor) (p q : SyncPoint)
    (h : closedChainB p fs q = true) (hne : fs ≠ []) : fsWFB fs = true := by
  cases fs with
  | nil => exact absurd rfl hne
  | cons hd rest =>
      obtain ⟨b0, eo0, f0⟩ := hd
      have hb0 : b0 = p := closedChainB_head h
      have h2 := segChainB_of_closedB _ p q h
      rw [← hb0] at h2
      simpa [fsWFB] using h2

/-- With unique keys, an entry of the updated dictionary that carries the
updated key holds exactly the replaced info. -/
theorem mem_setFactors_eq {l : SdiDict} {k : String} {fs : List AdjFactor} {d : SdiDict}
    (hnd : (keysOf l).Nodup) (hd : setFactors l k fs = some d) :
    ∀ e ∈ d, e.1 = k → ∃ s, (k, s) ∈ l ∧ e.2 = { s with adj_factors := fs } := by
  induction l generalizing d with
  | nil => simp [setFactors] at hd
  | cons a t ih =>
      obtain ⟨k0, s0⟩ := a
      simp only [keysOf, List.map_cons, List.nodup_cons] at hnd
      unfold setFactors at hd
      by_cases hk : k0 = k
      · rw [if_pos hk, Option.some.injEq] at hd
        subst hd
        intro e he hek
        rcases List.mem_cons.mp he with he | he
        · exact ⟨s0, by rw [← hk]; exact List.mem_cons_self _ _, by rw [he]⟩
        · exfalso
          apply hnd.1
          rw [hk]
          rw [← hek]
          exact List.mem_map.mpr ⟨e, he, rfl⟩
      · rw [if_neg hk] at hd
        cases hst : setFactors t k fs with
        | none => rw [hst] at hd; cases hd
        | some r =>
            rw [hst] at hd
            cases hd
            intro e he hek
            rcases List.mem_cons.mp he with he | he
            · exfalso; rw [he] at hek; exact hk hek
            · obtain ⟨s, hs1, hs2⟩ := ih hnd.2 hst e he hek
              exact ⟨s, List.mem_cons_of_mem _ hs1, hs2⟩

/-! ### Evaluation lemmas for the builder's step function -/

/-- A row without a location id is skipped. -/
theorem step_skip {gp : GeomProvider} {st : BuildState} {row : SurveyRow}
    (h : row.llid = "") : build_step gp st row = .ok st := by
  unfold build_step
  rw [if_pos h]

/-- A coordinate-less row of the current stream only re-arms
`need_adj_factor`. -/
theorem step_same_nocoords {gp : GeomProvider} {st : BuildState} {row : SurveyRow}
    (h1 : ¬ row.llid = "") (h2 : row.llid = st.prev_llid) (h3 : getXY row = none) :
    build_step gp st row = .ok { st with need_adj_factor := true } := by
  unfold build_step
  rw [if_neg h1, if_neg (by simp [h2]), h3]

/-- A coordinate row of the current stream closes the open segment with the
computed factor. -/
theorem step_same_coords {gp : GeomProvider} {st : BuildState} {row : SurveyRow}
    {x y : ℚ} {bp : SyncPoint}
    (h1 : ¬ row.llid = "") (h2 : row.llid = st.prev_llid) (h3 : getXY row = some (x, y))
    (h4 : st.begin_sync_point = some bp)
    (h5 : ¬ (epFor gp row x y).survey_cum_dist = bp.survey_cum_dist) :
    build_step gp st row = .ok { st with
      adj_factors := st.adj_factors ++ [(bp, some (epFor gp row x y), factorFormula bp (epFor gp row x y))]
      begin_sync_point := some (epFor gp row x y)
      need_adj_factor := false } := by
  unfold build_step
  rw [if_neg h1, if_neg (by simp [h2])]
  simp only [h3, h4, compute_adj_factor]
  rw [if_neg h5]

/-- A coordinate row of the current stream at the same reported distance as
the pending begin point makes `compute_adj_factor` divide by zero. -/
theorem step_same_coords_deg {gp : GeomProvider} {st : BuildState} {row : SurveyRow}
    {x y : ℚ} {bp : SyncPoint}
    (h1 : ¬ row.llid = "") (h2 : row.llid = st.prev_llid) (h3 : getXY row = some (x, y))
    (h4 : st.begin_sync_point = some bp)
    (h5 : (epFor gp row x y).survey_cum_dist = bp.survey_cum_dist) :
    build_step gp st row = .error .degenerateSegment := by
  unfold build_step
  rw [if_neg h1, if_neg (by simp [h2])]
  simp only [h3, h4, compute_adj_factor]
  rw [if_pos h5]

/-- The first usable row of the input starts the first stream. -/
theorem step_new {gp : GeomProvider} {st : BuildState} {row : SurveyRow}
    (h1 : ¬ row.llid = "") (h2 : ¬ row.llid = st.prev_llid) (h3 : st.prev_llid = "") :
    build_step gp st row
      = .ok ⟨insertReplace st.dict row.llid ⟨row.llid, row.stream, row.trib_to, []⟩,
             [], row.llid, true, some (beginPointFor gp row)⟩ := by
  unfold build_step
  rw [if_neg h1, if_pos (by simp [h2]), if_neg (by simp [h3])]

/-- A row of a new stream first flushes the previous stream. -/
theorem step_new_flush {gp : GeomProvider} {st st1 : BuildState} {row : SurveyRow}
    (h1 : ¬ row.llid = "") (h2 : ¬ row.llid = st.prev_llid) (h3 : ¬ st.prev_llid = "")
    (h4 : flushFactors st = .ok st1) :
    build_step gp st row
      = .ok ⟨insertReplace st1.dict row.llid ⟨row.llid, row.stream, row.trib_to, []⟩,
             [], row.llid, true, some (beginPointFor gp row)⟩ := by
  unfold build_step
  rw [if_neg h1, if_pos (by simp [h2]), if_pos (by simp [h3]), h4]

/-- The begin point for a row always carries that row's reported distance. -/
theorem beginPointFor_survey (gp : GeomProvider) (row : SurveyRow) :
    (beginPointFor gp row).survey_cum_dist = row.cum_dist := by
  unfold beginPointFor
  cases h : getXY row with
  | none => rfl
  | some xy => obtain ⟨x, y⟩ := xy; rfl

/-- The end point for a coordinate row carries that row's reported
distance. -/
theorem epFor_survey (gp : GeomProvider) (row : SurveyRow) (x y : ℚ) :
    (epFor gp row x y).survey_cum_dist = row.cum_dist := rfl

/-- Unfolding the row loop over one row. -/
theorem build_loop_cons (gp : GeomProvider) (r : SurveyRow) (rest : List SurveyRow)
    (st : BuildState) :
    build_loop gp (r :: rest) st
      = match build_step gp st r with
        | .error e => .error e
        | .ok st' => build_loop gp rest st' := rfl

/-- Unfolding `buildFrom` over a row. -/
theorem buildFrom_cons (gp : GeomProvider) (r : SurveyRow) (rest : List SurveyRow)
    (st : BuildState) :
    buildFrom gp (r :: rest) st
      = match build_step gp st r with
        | .error e => .error e
        | .ok st' => buildFrom gp rest st' := by
  unfold buildFrom
  rw [build_loop_cons]
  cases build_step gp st r with
  | error e => rfl
  | ok st' => rfl

/-- A successful step continues the run from the new state. -/
theorem buildFrom_cons_ok {gp : GeomProvider} {r : SurveyRow} {rest : List SurveyRow}
    {st st' : BuildState} (h : build_step gp st r = .ok st') :
    buildFrom gp (r :: rest) st = buildFrom gp rest st' := by
  rw [buildFrom_cons, h]

/-- A failing step fails the whole run. -/
theorem buildFrom_cons_err {gp : GeomProvider} {r : SurveyRow} {rest : List SurveyRow}
    {st : BuildState} {e : BuildError} (h : build_step gp st r = .error e) :
    buildFrom gp (r :: rest) st = .error e := by
  rw [buildFrom_cons, h]

/-! ### Wrap-up lemmas -/

/-- Unfolding `buildFrom` at end of file. -/
theorem buildFrom_nil (gp : GeomProvider) (st : BuildState) :
    buildFrom gp [] st
      = match flushFactors st with
        | .error e => .error e
        | .ok st2 => .ok st2.dict := rfl

/-- The owed-factor computation when a trailing tuple is pending. -/
theorem owedFactors_need {st : BuildState} {b : SyncPoint}
    (hn : st.need_adj_factor = true) (hb : st.begin_sync_point = some b) :
    owedFactors st = .ok (st.adj_factors ++ [(b, none, DEFAULT_ADJ_FACTOR)]) := by
  unfold owedFactors
  rw [hn, hb]
  rfl

/-- The owed-factor computation when no trailing tuple is pending. -/
theorem owedFactors_noneed {st : BuildState} (hn : st.need_adj_factor = false) :
    owedFactors st = .ok st.adj_factors := by
  unfold owedFactors
  rw [hn]
  rfl

/-- Evaluating the wrap-up from its two stages. -/
theorem flushFactors_ok {st : BuildState} {fs : List AdjFactor} {d : SdiDict}
    (ho : owedFactors st = .ok fs)
    (hd : setFactors st.dict st.prev_llid fs = some d) :
    flushFactors st = .ok { st with dict := d, adj_factors := fs, need_adj_factor := false } := by
  simp only [flushFactors, ho, hd]

/-- A wrap-up over an empty dictionary always fails. -/
theorem flushFactors_nil_dict {st : BuildState} (h : st.dict = []) :
    ∀ st2, ¬ flushFactors st = .ok st2 := by
  intro st2 hc
  unfold flushFactors at hc
  cases ho : owedFactors st with
  | error e => rw [ho] at hc; cases hc
  | ok fs =>
      rw [ho, h] at hc
      simp [setFactors] at hc

/-- Specification of `flushFactors` under the loop invariant: it succeeds,
preserves the key list, and leaves every entry of the dictionary keyed by
its own nonempty LLID with a well-formed factor sequence. -/
theorem flush_spec {st : BuildState} {lastD : ℤ} (hwf : StateWF st lastD)
    (hprev : ¬ st.prev_llid = "") :
    ∃ st1, flushFactors st = .ok st1 ∧
      keysOf st1.dict = keysOf st.dict ∧
      (∀ e ∈ st1.dict, e.2.llid = e.1 ∧ e.1 ≠ "") ∧
      (∀ e ∈ st1.dict, fsWFB e.2.adj_factors = true) := by
  obtain ⟨hnd, hent, hinit, hstart, hoth⟩ := hwf
  obtain ⟨p0, bp, hb, hch, hle, hkey, hne⟩ := hstart hprev
  have main : ∀ fs, owedFactors st = .ok fs → fsWFB fs = true →
      ∃ st1, flushFactors st = .ok st1 ∧
        keysOf st1.dict = keysOf st.dict ∧
        (∀ e ∈ st1.dict, e.2.llid = e.1 ∧ e.1 ≠ "") ∧
        (∀ e ∈ st1.dict, fsWFB e.2.adj_factors = true) := by
    intro fs ho hfswf
    obtain ⟨d, hd⟩ := setFactors_isSome fs hkey
    refine ⟨_, flushFactors_ok ho hd, setFactors_keys hd, ?_, ?_⟩
    · intro e he
      by_cases hek : e.1 = st.prev_llid
      · obtain ⟨s, hs1, hs2⟩ := mem_setFactors_eq hnd hd e he hek
        refine ⟨?_, by rw [hek]; exact hprev⟩
        rw [hs2, hek]
        exact (hent (st.prev_llid, s) hs1).1
      · rcases mem_setFactors hd e he with h | ⟨h1, _⟩
        · exact hent e h
        · exact absurd h1 hek
    · intro e he
      by_cases hek : e.1 = st.prev_llid
      · obtain ⟨s, hs1, hs2⟩ := mem_setFactors_eq hnd hd e he hek
        rw [hs2]
        exact hfswf
      · rcases mem_setFactors hd e he with h | ⟨h1, _⟩
        · exact hoth e h hek
        · exact absurd h1 hek
  cases hn : st.need_adj_factor with
  | true =>
      exact main _ (owedFactors_need hn hb) (fsWFB_closed_app _ p0 bp hch)
  | false =>
      exact main _ (owedFactors_noneed hn) (fsWFB_closed _ p0 bp hch (hne hn))

/-- Unfolding the input precondition over one row. -/
theorem incrB_cons (prev : String) (lastD : ℤ) (r : SurveyRow) (rest : List SurveyRow) :
    incrB prev lastD (r :: rest)
      = if r.llid = "" then incrB prev lastD rest
        else if r.llid = prev then decide (lastD < r.cum_dist) && incrB prev r.cum_dist rest
        else incrB r.llid r.cum_dist rest := rfl

/-- The state entering a fresh stream satisfies the loop invariant,
relative to that stream's first reported distance. -/
theorem stateWF_new {D : SdiDict} (row : SurveyRow) (gp : GeomProvider)
    (hll : ¬ row.llid = "")
    (hnd : (keysOf D).Nodup)
    (hent : ∀ e ∈ D, e.2.llid = e.1 ∧ e.1 ≠ "")
    (hwfD : ∀ e ∈ D, fsWFB e.2.adj_factors = true) :
    StateWF ⟨insertReplace D row.llid ⟨row.llid, row.stream, row.trib_to, []⟩,
             [], row.llid, true, some (beginPointFor gp row)⟩ row.cum_dist := by
  refine ⟨nodup_keysOf_insertReplace hnd, ?_, ?_, ?_, ?_⟩
  · intro e he
    rcases mem_insertReplace e he with h | h
    · exact hent e h
    · rw [h]; exact ⟨rfl, hll⟩
  · intro h; exact absurd h hll
  · intro _
    refine ⟨beginPointFor gp row, beginPointFor gp row, rfl, ?_, ?_, ?_, ?_⟩
    · simp [closedChainB]
    · exact le_of_eq (beginPointFor_survey gp row)
    · exact key_mem_insertReplace row.llid _
    · intro h; simp at h
  · intro e he hne2
    exact hwfD e (mem_insertReplace_ne he hne2)

/-- Any table the builder returns, for input rows whose reported distances
strictly increase within each stream's contiguous block, has unique keys,
is nonempty, and every entry is keyed by its own nonempty LLID with a
well-formed factor sequence. -/
theorem buildFrom_wf (gp : GeomProvider) : ∀ (rows : List SurveyRow) (st : BuildState)
    (lastD : ℤ) (dict : SdiDict),
    StateWF st lastD → incrB st.prev_llid lastD rows = true →
    buildFrom gp rows st = .ok dict →
    (keysOf dict).Nodup ∧ dict ≠ [] ∧
      ∀ e ∈ dict, e.2.llid = e.1 ∧ e.1 ≠ "" ∧ fsWFB e.2.adj_factors = true := by
  intro rows
  induction rows with
  | nil =>
      intro st lastD dict hwf hincr hb
      rw [buildFrom_nil] at hb
      by_cases hprev : st.prev_llid = ""
      · exfalso
        have hdict : st.dict = [] := hwf.2.2.1 hprev
        cases hfl : flushFactors st with
        | error e => rw [hfl] at hb; cases hb
        | ok st2 => exact flushFactors_nil_dict hdict st2 hfl
      · obtain ⟨st1, hfl, hkeys, hent1, hwf1⟩ := flush_spec hwf hprev
        rw [hfl] at hb
        cases hb
        refine ⟨by rw [hkeys]; exact hwf.1, ?_, ?_⟩
        · intro hc
          obtain ⟨p0, bp, _, _, _, hkey, _⟩ := hwf.2.2.2.1 hprev
          rw [← hkeys] at hkey
          rw [hc] at hkey
          simp [keysOf] at hkey
        · intro e he
          exact ⟨(hent1 e he).1, (hent1 e he).2, hwf1 e he⟩
  | cons r rest ih =>
      intro st lastD dict hwf hincr hb
      rw [incrB_cons] at hincr
      by_cases hll : r.llid = ""
      · rw [buildFrom_cons_ok (step_skip hll)] at hb
        rw [if_pos hll] at hincr
        exact ih st lastD dict hwf hincr hb
      · rw [if_neg hll] at hincr
        by_cases hsame : r.llid = st.prev_llid
        · rw [if_pos hsame] at hincr
          simp only [Bool.and_eq_true, decide_eq_true_eq] at hincr
          obtain ⟨hlt, hincr⟩ := hincr
          have hprev : ¬ st.prev_llid = "" := by rw [← hsame]; exact hll
          obtain ⟨p0, bp, hbp, hch, hle, hkey, hne⟩ := hwf.2.2.2.1 hprev
          cases hxy : getXY r with
          | none =>
              rw [buildFrom_cons_ok (step_same_nocoords hll hsame hxy)] at hb
              refine ih { st with need_adj_factor := true } r.cum_dist dict
                ⟨hwf.1, hwf.2.1, ?_, ?_, hwf.2.2.2.2⟩ hincr hb
              · intro h; exact absurd h hprev
              · intro _
                exact ⟨p0, bp, hbp, hch, le_of_lt (lt_of_le_of_lt hle hlt), hkey,
                  fun h => Bool.noConfusion h⟩
          | some xy =>
              obtain ⟨x, y⟩ := xy
              have hblt : bp.survey_cum_dist < (epFor gp r x y).survey_cum_dist := by
                rw [epFor_survey]
                exact lt_of_le_of_lt hle hlt
              have hneq : ¬ (epFor gp r x y).survey_cum_dist = bp.survey_cum_dist :=
                ne_of_gt hblt
              rw [buildFrom_cons_ok (step_same_coords hll hsame hxy hbp hneq)] at hb
              refine ih { st with
                  adj_factors := st.adj_factors ++
                    [(bp, some (epFor gp r x y), factorFormula bp (epFor gp r x y))]
                  begin_sync_point := some (epFor gp r x y)
                  need_adj_factor := false } r.cum_dist dict
                ⟨hwf.1, hwf.2.1, ?_, ?_, hwf.2.2.2.2⟩ hincr hb
              · intro h; exact absurd h hprev
              · intro _
                refine ⟨p0, epFor gp r x y, rfl, closedChainB_app _ p0 bp _ hch hblt,
                  le_of_eq (epFor_survey gp r x y), hkey, ?_⟩
                intro _
                simp
        · rw [if_neg hsame] at hincr
          by_cases hprev : st.prev_llid = ""
          · rw [buildFrom_cons_ok (step_new hll hsame hprev)] at hb
            have hdict : st.dict = [] := hwf.2.2.1 hprev
            refine ih _ r.cum_dist dict ?_ hincr hb
            refine stateWF_new r gp hll hwf.1 hwf.2.1 ?_
            intro e he
            rw [hdict] at he
            simp at he
          · obtain ⟨st1, hfl, hkeys, hent1, hwf1⟩ := flush_spec hwf hprev
            rw [buildFrom_cons_ok (step_new_flush hll hsame hprev hfl)] at hb
            refine ih _ r.cum_dist dict ?_ hincr hb
            exact stateWF_new r gp hll (by rw [hkeys]; exact hwf.1) hent1 hwf1

/-- The invariant and precondition at the start of a run. -/
theorem stateWF_init (lastD : ℤ) : StateWF initState lastD := by
  refine ⟨?_, ?_, ?_, ?_, ?_⟩ <;> simp [initState, keysOf]

/-! ### Round-trip machinery -/

/-- Sorted insertion only permutes. -/
theorem insertByKey_perm (e : String × StreamDistanceInfo) :
    ∀ l : SdiDict, (insertByKey e l).Perm (e :: l) := by
  intro l
  induction l with
  | nil => exact List.Perm.refl _
  | cons f rest ih =>
      unfold insertByKey
      by_cases h : f.1 < e.1
      · rw [if_pos h]
        exact (ih.cons f).trans (List.Perm.swap e f rest)
      · rw [if_neg h]

/-- Sorting only permutes. -/
theorem sortByKey_perm : ∀ l : SdiDict, (sortByKey l).Perm l := by
  intro l
  induction l with
  | nil => exact List.Perm.refl _
  | cons e rest ih => exact (insertByKey_perm e (sortByKey rest)).trans (ih.cons e)

/-- A written row parses back to the materialized factor. -/
theorem parsed_row (k nm tb : String) (af : AdjFactor) :
    parsedFactor (row_for_factor k nm tb af) = matFactor af := by
  obtain ⟨b, eo, f⟩ := af
  cases eo <;> rfl

/-- Reading a row of the current stream accumulates its factor. -/
theorem read_loop_cons_same {r : CsvRow} {rest : List CsvRow} {dict : SdiDict}
    {afs : List AdjFactor} {prev : String} (h : remove_squotes r.locationID = prev) :
    read_loop (r :: rest) dict afs prev
      = read_loop rest dict (afs ++ [parsedFactor r]) prev := by
  simp only [read_loop, h, if_pos]

/-- Reading the first row of a new stream flushes and starts its entry. -/
theorem read_loop_cons_new {r : CsvRow} {rest : List CsvRow} {dict d : SdiDict}
    {afs : List AdjFactor} {prev : String}
    (h : ¬ remove_squotes r.locationID = prev)
    (hd : (if prev = "" then some dict else setFactors dict prev afs) = some d) :
    read_loop (r :: rest) dict afs prev
      = read_loop rest
          (insertReplace d (remove_squotes r.locationID)
            ⟨remove_squotes r.locationID, r.stream_Name, r.trib_To, []⟩)
          [parsedFactor r] (remove_squotes r.locationID) := by
  simp only [read_loop, if_neg h, hd]

/-- The written row carries the stream name unchanged. -/
theorem row_for_factor_name (q nm tb : String) (af : AdjFactor) :
    (row_for_factor q nm tb af).stream_Name = nm := by
  obtain ⟨b, eo, f⟩ := af
  cases eo <;> rfl

/-- The written row carries the parent-stream name unchanged. -/
theorem row_for_factor_trib (q nm tb : String) (af : AdjFactor) :
    (row_for_factor q nm tb af).trib_To = tb := by
  obtain ⟨b, eo, f⟩ := af
  cases eo <;> rfl

/-- Reading the remaining rows of one stream's block accumulates its
materialized factors. -/
theorem read_block (k nm tb : String) (hk : squote ∉ k.data) :
    ∀ (fs : List AdjFactor) (rest : List CsvRow) (dict : SdiDict) (acc : List AdjFactor),
    read_loop (fs.map (row_for_factor (quote_llid k) nm tb) ++ rest) dict acc k
      = read_loop rest dict (acc ++ fs.map matFactor) k := by
  intro fs
  induction fs with
  | nil => intro rest dict acc; simp
  | cons f fs' ih =>
      intro rest dict acc
      simp only [List.map_cons, List.cons_append]
      rw [read_loop_cons_same (by
        show remove_squotes (quote_llid k) = k
        exact remove_squotes_quote k hk)]
      rw [ih rest dict (acc ++ [parsedFactor (row_for_factor (quote_llid k) nm tb f)])]
      rw [parsed_row]
      simp [matFactor]

/-- Reading the concatenated blocks of later streams, from the state that
has just finished accumulating the previous stream. -/
theorem read_blocks : ∀ (blocks : List (String × StreamDistanceInfo)) (done : SdiDict)
    (prev : String) (pent : StreamDistanceInfo) (afs : List AdjFactor),
    ¬ prev = "" →
    prev ∉ keysOf done →
    (∀ bl ∈ blocks, squote ∉ bl.1.data ∧ bl.1 ≠ "" ∧ bl.2.llid = bl.1 ∧
      bl.2.adj_factors ≠ []) →
    (∀ bl ∈ blocks, ¬ bl.1 = prev ∧ bl.1 ∉ keysOf done) →
    (blocks.map Prod.fst).Pairwise (fun a b => a ≠ b) →
    read_loop (blocks.flatMap writeBlock) (done ++ [(prev, pent)]) afs prev
      = .ok (done ++ [(prev, { pent with adj_factors := afs })] ++ blocks.map matEntry) := by
  intro blocks
  induction blocks with
  | nil =>
      intro done prev pent afs hprev hnp _ _ _
      simp only [List.flatMap_nil, read_loop]
      rw [setFactors_append pent afs hnp]
      simp
  | cons bl blocks' ih =>
      obtain ⟨k, sdi⟩ := bl
      intro done prev pent afs hprev hnp hok hvs hpw
      obtain ⟨hksq, hkne, hkllid, hkfs⟩ := hok (k, sdi) (List.mem_cons_self _ _)
      obtain ⟨hkprev, hkdone⟩ := hvs (k, sdi) (List.mem_cons_self _ _)
      cases hfs : sdi.adj_factors with
      | nil => exact absurd hfs hkfs
      | cons f0 fs' =>
          simp only [List.flatMap_cons]
          have hwb : writeBlock (k, sdi)
              = row_for_factor (quote_llid k) sdi.name sdi.trib_to f0
                :: fs'.map (row_for_factor (quote_llid k) sdi.name sdi.trib_to) := by
            simp [writeBlock, hfs]
          rw [hwb]
          have hq : remove_squotes
              (row_for_factor (quote_llid k) sdi.name sdi.trib_to f0).locationID = k := by
            show remove_squotes (quote_llid k) = k
            exact remove_squotes_quote k hksq
          rw [List.cons_append]
          rw [read_loop_cons_new (by rw [hq]; exact hkprev)
            (by rw [if_neg hprev]; exact setFactors_append pent afs hnp)]
          rw [hq, row_for_factor_name, row_for_factor_trib]
          have hknotin : k ∉ keysOf (done ++ [(prev, { pent with adj_factors := afs })]) := by
            intro hc
            rw [keysOf, List.map_append] at hc
            rcases List.mem_append.mp hc with hc | hc
            · exact hkdone hc
            · simp at hc
              exact hkprev hc
          rw [insertReplace_notin _ hknotin]
          rw [read_block k sdi.name sdi.trib_to hksq fs']
          have hpw2 := List.pairwise_cons.mp hpw
          have hstep := ih (done ++ [(prev, { pent with adj_factors := afs })]) k
            ⟨k, sdi.name, sdi.trib_to, []⟩ ([parsedFactor
              (row_for_factor (quote_llid k) sdi.name sdi.trib_to f0)] ++ fs'.map matFactor)
            hkne hknotin
            (fun bl2 h2 => hok bl2 (List.mem_cons_of_mem _ h2))
            (fun bl2 h2 =>
              ⟨fun hc => hpw2.1 bl2.1 (List.mem_map.mpr ⟨bl2, h2, rfl⟩) hc.symm,
               fun hc => by
                  rw [keysOf, List.map_append] at hc
                  rcases List.mem_append.mp hc with hc | hc
                  · exact (hvs bl2 (List.mem_cons_of_mem _ h2)).2 hc
                  · simp at hc
                    exact (hvs bl2 (List.mem_cons_of_mem _ h2)).1 hc⟩)
            hpw2.2
          rw [hstep]
          rw [parsed_row]
          have hmat : matFactor f0 :: List.map matFactor fs'
              = List.map matFactor sdi.adj_factors := by
            rw [hfs, List.map_cons]
          congr 1
          simp only [List.map_cons, matEntry, matSDI, List.append_assoc,
            List.singleton_append]
          rw [hmat, hkllid]
          simp

/-- A well-formed factor sequence is nonempty. -/
theorem fsWFB_ne_nil {fs : List AdjFactor} (h : fsWFB fs = true) : fs ≠ [] := by
  intro hc
  rw [hc] at h
  simp [fsWFB] at h

/-- Writing then reading any table whose entries are keyed by their own
nonempty, quote-free LLIDs, with unique keys and nonempty factor
sequences, yields exactly the key-sorted table with every open end
materialized as the 999999 sentinel point. -/
theorem read_write_general (dict : SdiDict)
    (hne : dict ≠ [])
    (hnd : (keysOf dict).Nodup)
    (hok : ∀ e ∈ dict, squote ∉ e.1.data ∧ e.1 ≠ "" ∧ e.2.llid = e.1 ∧
      e.2.adj_factors ≠ []) :
    read_sdi_from_csvfile (write_sdi_to_csv_file dict)
      = .ok ((sortByKey dict).map matEntry) := by
  have hperm := sortByKey_perm dict
  have hneS : sortByKey dict ≠ [] := by
    intro hc
    rw [hc] at hperm
    exact hne hperm.symm.eq_nil
  have hokS : ∀ e ∈ sortByKey dict, squote ∉ e.1.data ∧ e.1 ≠ "" ∧ e.2.llid = e.1 ∧
      e.2.adj_factors ≠ [] :=
    fun e he => hok e (hperm.mem_iff.mp he)
  have hndS : (keysOf (sortByKey dict)).Nodup := ((hperm.map Prod.fst).nodup_iff).mpr hnd
  cases hS : sortByKey dict with
  | nil => exact absurd hS hneS
  | cons b0 blocks =>
      obtain ⟨k0, sdi0⟩ := b0
      rw [hS] at hokS hndS
      obtain ⟨hksq, hkne, hkllid, hkfs⟩ := hokS (k0, sdi0) (List.mem_cons_self _ _)
      have hnd2 := List.nodup_cons.mp hndS
      unfold read_sdi_from_csvfile write_sdi_to_csv_file
      rw [hS]
      simp only [List.flatMap_cons]
      cases hfs : sdi0.adj_factors with
      | nil => exact absurd hfs hkfs
      | cons f0 fs' =>
          have hwb : writeBlock (k0, sdi0)
              = row_for_factor (quote_llid k0) sdi0.name sdi0.trib_to f0
                :: fs'.map (row_for_factor (quote_llid k0) sdi0.name sdi0.trib_to) := by
            simp [writeBlock, hfs]
          rw [hwb]
          have hq : remove_squotes
              (row_for_factor (quote_llid k0) sdi0.name sdi0.trib_to f0).locationID = k0 := by
            show remove_squotes (quote_llid k0) = k0
            exact remove_squotes_quote k0 hksq
          rw [List.cons_append]
          rw [read_loop_cons_new (by rw [hq]; exact hkne) (by rw [if_pos rfl])]
          rw [hq, row_for_factor_name, row_for_factor_trib]
          rw [read_block k0 sdi0.name sdi0.trib_to hksq fs']
          have hres := read_blocks blocks [] k0 ⟨k0, sdi0.name, sdi0.trib_to, []⟩
            ([parsedFactor (row_for_factor (quote_llid k0) sdi0.name sdi0.trib_to f0)]
              ++ fs'.map matFactor)
            hkne (by simp [keysOf])
            (fun bl h2 => hokS bl (List.mem_cons_of_mem _ h2))
            (fun bl h2 =>
              ⟨fun hc => hnd2.1 (by rw [← hc]; exact List.mem_map.mpr ⟨bl, h2, rfl⟩),
               by simp [keysOf]⟩)
            hnd2.2
          simp only [List.nil_append] at hres
          show read_loop (blocks.flatMap writeBlock)
            (insertReplace [] k0 ⟨k0, sdi0.name, sdi0.trib_to, []⟩)
            ([parsedFactor (row_for_factor (quote_llid k0) sdi0.name sdi0.trib_to f0)]
              ++ fs'.map matFactor) k0 = _
          rw [show insertReplace [] k0 (⟨k0, sdi0.name, sdi0.trib_to, []⟩ : StreamDistanceInfo)
              = [(k0, ⟨k0, sdi0.name, sdi0.trib_to, []⟩)] from rfl]
          rw [hres, parsed_row]
          have hmat : matFactor f0 :: List.map matFactor fs'
              = List.map matFactor sdi0.adj_factors := by
            rw [hfs, List.map_cons]
          congr 1
          simp only [List.map_cons, matEntry, matSDI, List.singleton_append]
          rw [hmat, hkllid]

/-- **C2** (amended).  For every table the builder produces from
precondition-satisfying input whose LLIDs contain no single quote,
deserializing its serialization yields the key-sorted table with the same
feature identifiers, the same number of segments per feature in the same
order, and equal numeric values for every present sync point -- but every
open-end sentinel comes back as a concrete end point at survey/streamline
distance 999999 with absent coordinates, not as an absent end, so the
collapse is not inverted (see the counterexample). -/
theorem claim2_roundtrip (gp : GeomProvider) (rows : List SurveyRow) (dict : SdiDict)
    (h1 : incrB "" 0 rows = true)
    (h2 : build_streamlength_adjustment_factor_dictionary gp rows = .ok dict)
    (h3 : ∀ k ∈ keysOf dict, squote ∉ k.data) :
    read_sdi_from_csvfile (write_sdi_to_csv_file dict)
      = .ok ((sortByKey dict).map matEntry) := by
  have hwf := buildFrom_wf gp rows initState 0 dict (stateWF_init 0) h1 h2
  refine read_write_general dict hwf.2.1 hwf.1 ?_
  intro e he
  obtain ⟨ha, hb, hc⟩ := hwf.2.2 e he
  exact ⟨h3 e.1 (List.mem_map.mpr ⟨e, he, rfl⟩), hb, ha, fsWFB_ne_nil hc⟩

/-- Witness for the amended C2 on the built scenario table `tblC1`. -/
theorem claim2_witness :
    read_sdi_from_csvfile (write_sdi_to_csv_file tblC1)
      = .ok ((sortByKey tblC1).map matEntry) :=
  claim2_roundtrip gpC1 rowsC1 tblC1
    (of_decide_eq_true (by with_unfolding_all rfl))
    (of_decide_eq_true (by with_unfolding_all rfl))
    (of_decide_eq_true (by with_unfolding_all rfl))

/-! ## Claims -/

/-- **C1** (counterexample).  On the spec's §8 scenario the builder does
not produce two segments: the final row carries coordinates, so no trailing
open-end segment is owed and exactly one (closed) segment is emitted; on
the resulting table `resolve "100" 1200 = 1200`, not `1300`, because the
fallback applies the default factor from the closed segment's begin. -/
theorem claim1_counterexample :
    build_streamlength_adjustment_factor_dictionary gpC1 rowsC1 = .ok tblC1 ∧
    tblC1.map (fun e => e.2.adj_factors.length) = [1] ∧
    resolve tblC1 "100" 1200 = .ok 1200 ∧
    ¬ resolve tblC1 "100" 1200 = .ok 1300 :=
  of_decide_eq_true (by with_unfolding_all rfl)

/-- **C1** (amended).  On the §8 scenario the builder produces exactly one
segment for feature "100" — the closed segment from (0,0) to (1000,1100)
with factor 1.1 — and on the resulting table `resolve "100" 750 = 825`
while `resolve "100" 1200 = 1200` (default factor 1.0 applied from the
closed segment's begin, since no trailing open-end segment exists). -/
theorem claim1_amended :
    build_streamlength_adjustment_factor_dictionary gpC1 rowsC1 = .ok tblC1 ∧
    resolve tblC1 "100" 750 = .ok 825 ∧
    resolve tblC1 "100" 1200 = .ok 1200 :=
  of_decide_eq_true (by with_unfolding_all rfl)

/-- **C2** (counterexample).  Serializing and deserializing the built
table `tblR`, whose single segment has an open end, does not reproduce the
table: the open-end sentinel does not collapse back to absent but comes
back as a concrete end point at survey/streamline distance 999999, so the
round trip is not lossless. -/
theorem claim2_counterexample :
    read_sdi_from_csvfile (write_sdi_to_csv_file tblR) = .ok tblRmat ∧ tblRmat ≠ tblR := by
  constructor
  · rw [write_tblR]
    exact read_rowR
  · exact of_decide_eq_true (by with_unfolding_all rfl)

/-- **C3** (counterexample).  Building from a single row at reported
distance 100 yields a table in which no segment's begin has survey
distance 0: the builder never synthesizes a distance-0 origin, it starts
the first segment at the first row's reported distance. -/
theorem claim3_counterexample :
    build_streamlength_adjustment_factor_dictionary gpZero rows3 = .ok tbl3 ∧
    (∀ e ∈ tbl3, ∀ af ∈ e.2.adj_factors, ¬ af.1.survey_cum_dist = 0) :=
  of_decide_eq_true (by with_unfolding_all rfl)

/-- **C5** (counterexample).  For a feature whose last segment is closed
(no trailing open-end segment), a distance beyond it does not extrapolate
from the closed segment's end: `tbl5`'s last closed segment ends at
(1000, 1100), the claim predicts 1100 + (1200-1000)*1 = 1300, but
`resolve` returns 1200 (default factor applied from the segment's begin). -/
theorem claim5_counterexample :
    resolve tbl5 "A" 1200 = .ok 1200 ∧
    (1100 + (1200 - 1000) * DEFAULT_ADJ_FACTOR : ℚ) = 1300 ∧
    ¬ resolve tbl5 "A" 1200 = .ok 1300 :=
  of_decide_eq_true (by with_unfolding_all rfl)

/-- **C6** (counterexample).  In `tbl6` no segment of feature "A" matches
survey distance 0 (all segments begin at 100 or later); the nearest segment
start is `p6A` at survey distance 100, from which the default factor would
give 500 + (0-100)*1 = 400, but `resolve` applies the default factor from
the begin of the **last** scanned segment, returning 500. -/
theorem claim6_counterexample :
    (∀ af ∈ [(p6A, some p6B, (2 : ℚ)), (p6B, some sentinelEnd, (1 : ℚ))],
        ∀ e, af.2.1 = some e → segMatches 0 af.1 e = false) ∧
    resolve tbl6 "A" 0 = .ok 500 ∧
    p6A.streamline_cum_dist + (0 - (p6A.survey_cum_dist : ℚ)) * DEFAULT_ADJ_FACTOR = 400 ∧
    ¬ resolve tbl6 "A" 0 = .ok 400 :=
  of_decide_eq_true (by with_unfolding_all rfl)

/-- **C3** (amended).  For input rows whose reported distances strictly
increase within each stream's contiguous block (the documented input
precondition), every feature of a built table has a nonempty factor
sequence forming a well-formed chain from its own first begin point:
segments ordered by begin survey distance ascending, contiguous (each
begin is the previous end), an open end only in final position.  The
chain starts at the feature's first control point, not at a synthesized
distance-0 origin, so coverage of [0, +inf) fails in general (see the
counterexample). -/
theorem claim3_ordered_contiguous (gp : GeomProvider) (rows : List SurveyRow)
    (dict : SdiDict)
    (h1 : incrB "" 0 rows = true)
    (h2 : build_streamlength_adjustment_factor_dictionary gp rows = .ok dict) :
    dict ≠ [] ∧ ∀ e ∈ dict, fsWFB e.2.adj_factors = true := by
  have h := buildFrom_wf gp rows initState 0 dict (stateWF_init 0) h1 h2
  exact ⟨h.2.1, fun e he => (h.2.2 e he).2.2⟩

/-- Witness for the amended C3 on the single-row input `rows3`. -/
theorem claim3_witness : tbl3 ≠ [] ∧ ∀ e ∈ tbl3, fsWFB e.2.adj_factors = true :=
  claim3_ordered_contiguous gpZero rows3 tbl3
    (of_decide_eq_true (by with_unfolding_all rfl))
    (of_decide_eq_true (by with_unfolding_all rfl))

/-- **C4.**  For every feature of a table built from
precondition-satisfying input and every closed segment `(b, e, f)` of that
feature, resolving at `b`'s survey distance returns exactly `b`'s feature
distance and resolving at `e`'s survey distance returns exactly `e`'s
feature distance (numbers modelled as exact rationals). -/
theorem claim4_boundary_exact (gp : GeomProvider) (rows : List SurveyRow) (dict : SdiDict)
    (llid : String) (sdi : StreamDistanceInfo) (b e : SyncPoint) (f : ℚ)
    (h1 : incrB "" 0 rows = true)
    (h2 : build_streamlength_adjustment_factor_dictionary gp rows = .ok dict)
    (h3 : lookupSDI dict llid = some sdi)
    (h4 : (b, some e, f) ∈ sdi.adj_factors) :
    resolve dict llid (b.survey_cum_dist : ℚ) = .ok b.streamline_cum_dist ∧
    resolve dict llid (e.survey_cum_dist : ℚ) = .ok e.streamline_cum_dist := by
  have hwf := buildFrom_wf gp rows initState 0 dict (stateWF_init 0) h1 h2
  have hmem : (llid, sdi) ∈ dict := lookupSDI_mem h3
  have hfswf := (hwf.2.2 (llid, sdi) hmem).2.2
  cases hfs : sdi.adj_factors with
  | nil => rw [hfs] at h4; simp at h4
  | cons hd t =>
      obtain ⟨b0, eo0, f0⟩ := hd
      rw [hfs] at hfswf h4
      simp only [fsWFB] at hfswf
      have hcb := chain_boundary ((b0, eo0, f0) :: t) b0 hfswf b e f h4
      constructor
      · have h5 := hcb.1 none
        simp only [resolve, h3, adjust_stream_distance, hfs]
        exact h5
      · have h5 := hcb.2 none
        simp only [resolve, h3, adjust_stream_distance, hfs]
        exact h5

/-- Witness for C4 at the closed segment of `tblC1`. -/
theorem claim4_witness :
    resolve tblC1 "100" (pC1b.survey_cum_dist : ℚ) = .ok pC1b.streamline_cum_dist ∧
    resolve tblC1 "100" (pC1e.survey_cum_dist : ℚ) = .ok pC1e.streamline_cum_dist :=
  claim4_boundary_exact gpC1 rowsC1 tblC1 "100"
    ⟨"100", "Big Creek", "River", [(pC1b, some pC1e, 11/10)]⟩ pC1b pC1e (11/10)
    (of_decide_eq_true (by with_unfolding_all rfl))
    (of_decide_eq_true (by with_unfolding_all rfl))
    (by rfl)
    (List.mem_cons_self _ _)

/-- **C5** (amended).  When a feature's factor sequence is a closed chain
followed by a trailing segment carrying the default factor from the chain's
end point `B` (the shape a built-and-reloaded table has), every survey
distance beyond `B` resolves to
`B.streamline + (d - B.survey) * 1.0` -- the claimed formula, with the
"last" point being the trailing segment's begin, which is the last closed
segment's end. -/
theorem claim5_default_extrapolation (dict : SdiDict) (llid : String)
    (sdi : StreamDistanceInfo) (p B E : SyncPoint) (fs0 : List AdjFactor) (d : ℚ)
    (h1 : lookupSDI dict llid = some sdi)
    (h2 : sdi.adj_factors = fs0 ++ [(B, some E, DEFAULT_ADJ_FACTOR)])
    (h3 : closedChainB p fs0 B = true)
    (h4 : (B.survey_cum_dist : ℚ) < d) :
    resolve dict llid d
      = .ok (B.streamline_cum_dist + (d - (B.survey_cum_dist : ℚ)) * DEFAULT_ADJ_FACTOR) := by
  simp only [resolve, h1, adjust_stream_distance]
  rw [h2]
  exact closed_trailing fs0 p B E d none h3 h4

/-- Witness for the amended C5 on the reloaded table `tblRmat` at 150. -/
theorem claim5_witness :
    resolve tblRmat "100" 150
      = .ok (pR.streamline_cum_dist + (150 - (pR.survey_cum_dist : ℚ)) * DEFAULT_ADJ_FACTOR) :=
  claim5_default_extrapolation tblRmat "100" ⟨"100", "s", "t", [(pR, some sentinelEnd, 1)]⟩
    pR pR sentinelEnd [] 150
    (by rfl)
    (by rfl)
    (by simp [closedChainB])
    (by norm_num [pR])

/-- **C6** (amended).  For a feature whose factor tuples all carry concrete
end points (as in any reloaded table), a survey distance matching no
segment does not crash `resolve`: it returns the default factor 1.0
applied from the begin of the **last** tuple of the feature's sequence
(not from the nearest segment start). -/
theorem claim6_nomatch_fallback (dict : SdiDict) (llid : String)
    (sdi : StreamDistanceInfo) (laf : AdjFactor) (d : ℚ)
    (h1 : lookupSDI dict llid = some sdi)
    (h2 : sdi.adj_factors.getLast? = some laf)
    (h3 : ∀ af ∈ sdi.adj_factors, (af.2.1).isSome = true)
    (h4 : ∀ af ∈ sdi.adj_factors, ∀ e, af.2.1 = some e → segMatches d af.1 e = false) :
    resolve dict llid d
      = .ok (laf.1.streamline_cum_dist +
          (d - (laf.1.survey_cum_dist : ℚ)) * DEFAULT_ADJ_FACTOR) := by
  simp only [resolve, h1, adjust_stream_distance]
  exact nomatch_fallback sdi.adj_factors laf d none h2 h3 h4

/-- Witness for the amended C6 on `tbl6` at distance 0. -/
theorem claim6_witness :
    resolve tbl6 "A" 0
      = .ok (p6B.streamline_cum_dist + (0 - (p6B.survey_cum_dist : ℚ)) * DEFAULT_ADJ_FACTOR) :=
  claim6_nomatch_fallback tbl6 "A" ⟨"A", "s", "t", [(p6A, some p6B, 2), (p6B, some sentinelEnd, 1)]⟩
    (p6B, some sentinelEnd, 1) 0
    (by rfl)
    (by rfl)
    (by intro af haf
        simp only [List.mem_cons, List.not_mem_nil, or_false] at haf
        rcases haf with h | h <;> rw [h] <;> rfl)
    (by intro af haf e he
        simp only [List.mem_cons, List.not_mem_nil, or_false] at haf
        rcases haf with h | h <;> rw [h] at he ⊢ <;> cases Option.some.inj he <;>
          simp only [segMatches, Bool.and_eq_false_iff, decide_eq_false_iff_not, not_le] <;>
          left <;> norm_num [p6A, p6B])

/-- Once a stream is active with pending begin point `bp`, an input tail
for that stream whose control-point distance sequence (starting from
`bp`'s) has two adjacent equal entries drives the builder into the
degenerate-segment error. -/
theorem build_deg_loop (gp : GeomProvider) (L : String) (hL : ¬ L = "") :
    ∀ (rows : List SurveyRow) (st : BuildState) (bp : SyncPoint),
    (∀ r ∈ rows, r.llid = L) → st.prev_llid = L → st.begin_sync_point = some bp →
    hasAdjEq (bp.survey_cum_dist :: controlDistsTail rows) = true →
    buildFrom gp rows st = .error .degenerateSegment := by
  intro rows
  induction rows with
  | nil =>
      intro st bp _ _ _ hadj
      simp [controlDistsTail, hasAdjEq] at hadj
  | cons r rest ih =>
      intro st bp hall hprev hbp hadj
      have hrL : r.llid = L := hall r (List.mem_cons_self _ _)
      have hll : ¬ r.llid = "" := by rw [hrL]; exact hL
      have hsame : r.llid = st.prev_llid := by rw [hrL, hprev]
      cases hxy : getXY r with
      | none =>
          rw [buildFrom_cons_ok (step_same_nocoords hll hsame hxy)]
          refine ih { st with need_adj_factor := true } bp
            (fun r2 h2 => hall r2 (List.mem_cons_of_mem _ h2)) hprev hbp ?_
          have hcd : controlDistsTail (r :: rest) = controlDistsTail rest := by
            simp [controlDistsTail, List.filter_cons, hxy]
          rw [hcd] at hadj
          exact hadj
      | some xy =>
          obtain ⟨x, y⟩ := xy
          have hcd : controlDistsTail (r :: rest) = r.cum_dist :: controlDistsTail rest := by
            simp [controlDistsTail, List.filter_cons, hxy]
          rw [hcd] at hadj
          by_cases heq : (epFor gp r x y).survey_cum_dist = bp.survey_cum_dist
          · rw [buildFrom_cons_err (step_same_coords_deg hll hsame hxy hbp heq)]
          · rw [buildFrom_cons_ok (step_same_coords hll hsame hxy hbp heq)]
            refine ih { st with
                adj_factors := st.adj_factors ++
                  [(bp, some (epFor gp r x y), factorFormula bp (epFor gp r x y))]
                begin_sync_point := some (epFor gp r x y)
                need_adj_factor := false } (epFor gp r x y)
              (fun r2 h2 => hall r2 (List.mem_cons_of_mem _ h2)) hprev rfl ?_
            have hne2 : ¬ bp.survey_cum_dist = r.cum_dist := by
              intro hc
              exact heq (by rw [epFor_survey, ← hc])
            simp only [hasAdjEq, Bool.or_eq_true, decide_eq_true_eq] at hadj
            rcases hadj with h | h
            · exact absurd h hne2
            · rw [epFor_survey]
              exact h

/-- **C7.**  If the rows of one stream carry two adjacent control points
(rows with coordinates, or the stream's first row) with equal reported
survey distances, the builder fails with the degenerate-segment error (the
`ZeroDivisionError` of `compute_adj_factor`); the zero-width segment is
never silently suppressed and never emitted into a table. -/
theorem claim7_degenerate (gp : GeomProvider) (L : String) (r0 : SurveyRow)
    (rest : List SurveyRow)
    (hL : ¬ L = "")
    (hall : ∀ r ∈ r0 :: rest, r.llid = L)
    (hdeg : hasAdjEq (r0.cum_dist :: controlDistsTail rest) = true) :
    build_streamlength_adjustment_factor_dictionary gp (r0 :: rest)
      = .error .degenerateSegment := by
  have hr0 : r0.llid = L := hall r0 (List.mem_cons_self _ _)
  have hll : ¬ r0.llid = "" := by rw [hr0]; exact hL
  have hne : ¬ r0.llid = initState.prev_llid := hll
  show buildFrom gp (r0 :: rest) initState = .error .degenerateSegment
  rw [buildFrom_cons_ok (step_new hll hne rfl)]
  refine build_deg_loop gp L hL rest _ (beginPointFor gp r0)
    (fun r2 h2 => hall r2 (List.mem_cons_of_mem _ h2)) hr0 rfl ?_
  rw [beginPointFor_survey]
  exact hdeg

/-- Witness for C7 on the two equal-distance rows `rowsDeg`. -/
theorem claim7_witness :
    build_streamlength_adjustment_factor_dictionary gpZero rowsDeg
      = .error .degenerateSegment :=
  claim7_degenerate gpZero "9" rowDeg1 [rowDeg2]
    (of_decide_eq_true (by with_unfolding_all rfl))
    (of_decide_eq_true (by with_unfolding_all rfl))
    (of_decide_eq_true (by with_unfolding_all rfl))

/-- **C8.**  For every feature identifier absent from the table, `resolve`
raises the lookup error (the `KeyError`, a Python `LookupError`, from
`stream_dist_info_dict[new_llid]`) rather than returning a value. -/
theorem claim8_missing_feature (dict : SdiDict) (llid : String) (d : ℚ)
    (h : lookupSDI dict llid = none) :
    resolve dict llid d = .error .lookupError := by
  unfold resolve
  rw [h]

/-- Witness for C8: `tblC1` has no key "999". -/
theorem claim8_witness : resolve tblC1 "999" 5 = .error .lookupError :=
  claim8_missing_feature tblC1 "999" 5 (of_decide_eq_true (by with_unfolding_all rfl))

/-- **C9.**  Deserialization never produces an absent end point: every
factor tuple read back has a concrete end; a segment written with an open
end reads back with the end point at survey and streamline distance
999999 with absent coordinates; and a survey distance beyond 999999
matches no such segment. -/
theorem claim9_sentinel_end :
    (∀ rows out, read_sdi_from_csvfile rows = .ok out →
        ∀ e ∈ out, ∀ af ∈ e.2.adj_factors, (af.2.1).isSome = true) ∧
    (∀ k nm tb (b : SyncPoint) (f : ℚ),
        parsedEnd (row_for_factor k nm tb (b, none, f)) = sentinelEnd) ∧
    (∀ (d : ℚ) (b : SyncPoint), (DEFAULT_END_DIST : ℚ) < d →
        segMatches d b sentinelEnd = false) := by
  refine ⟨fun rows out h => read_loop_ends rows [] [] "" out (by simp) (by simp) h,
          fun k nm tb b f => rfl, fun d b hd => ?_⟩
  unfold segMatches
  simp only [Bool.and_eq_false_iff, decide_eq_false_iff_not, not_le]
  right
  simpa [sentinelEnd, DEFAULT_END_DIST] using hd

/-- Witness for C9 at the concrete row `rowR`. -/
theorem claim9_witness :
    (∀ e ∈ tblRmat, ∀ af ∈ e.2.adj_factors, (af.2.1).isSome = true) ∧
    parsedEnd (row_for_factor "q" "n" "t" (pW, none, 1)) = sentinelEnd ∧
    segMatches 1000000 pW sentinelEnd = false :=
  ⟨claim9_sentinel_end.1 [rowR] tblRmat read_rowR,
   claim9_sentinel_end.2.1 "q" "n" "t" pW 1,
   claim9_sentinel_end.2.2 1000000 pW (by norm_num [DEFAULT_END_DIST])⟩

/-- **C10.**  The writer wraps the LLID in single quotes and the reader
strips every single quote, so the identifier round-trips exactly when it
contains no single quote, and is altered otherwise (witnessed by the
identifier `a'b`, which comes back as `ab`). -/
theorem claim10_llid_quoting :
    (∀ s : String, squote ∉ s.data → remove_squotes (quote_llid s) = s) ∧
    remove_squotes (quote_llid ("a" ++ squoteStr ++ "b")) = "ab" ∧
    ("a" ++ squoteStr ++ "b") ≠ "ab" := by
  exact ⟨fun s h => remove_squotes_quote s h,
    of_decide_eq_true (by with_unfolding_all rfl),
    of_decide_eq_true (by with_unfolding_all rfl)⟩

/-- Witness for C10 on the quote-free identifier "100". -/
theorem claim10_witness : remove_squotes (quote_llid "100") = "100" :=
  claim10_llid_quoting.1 "100" (of_decide_eq_true (by with_unfolding_all rfl))

end RBA
